import Mathlib

/-!
Verification of the ksonnet parameter editor (`metadata/params/params.go` and
its visitor companion file).

The Go code operates on a snippet of jsonnet source text: an external parser
(`parser.Lex`/`parser.Parse` from go-jsonnet) turns the text into an AST with
source locations, and the functions of the package walk that AST and splice
text lines.  We embed:

* the AST node shapes that the walker consumes (`Node`, `Fields`,
  `NodeList`, `FieldKey`), including the source `LocationRange` that the
  splicing code consults;
* the scalar literal codec (`visitParamValue`, modelling Go's
  `strconv.FormatFloat(v, 'f', -1, 64)` over an exact decimal-number value
  model `Decimal`; number literals small enough to be exactly representable
  in float64 — the only ones used in concrete proofs — behave identically);
* every function of `params.go` (`visit`, `visitComponentsObj`,
  `visitParams`, `visitAllParams`, `getFieldID`, `hasComponent`,
  `writeParams`, `appendComponent`, `getComponentParams`,
  `getAllComponentParams`, `setComponentParams`, `getEnvironmentParams`,
  `setEnvironmentParams`, `SanitizeComponent`);
* a family of canonically rendered parameter documents (`Doc`) together
  with the AST that the external parser produces for them (`docAST`), used
  to state round-trip properties: the splicing functions receive the split
  lines of the snippet (`strings.Split(snippet, "\n")`) and the parsed root.

Snippets are represented throughout by their list of lines; the Go code
splits the incoming text on `"\n"` at entry and joins on `"\n"` at exit, so
this representation is a bijective image of the text.  Where Go inserts a
multi-line string as a single slice element before joining, we insert its
split lines, which yields the identical joined text.
-/

/-- Kinds of jsonnet string literals (`ast.StringSingle`, `ast.StringDouble`,
`ast.StringBlock`). -/
inductive StrKind where
  | single
  | double
  | block
deriving DecidableEq, Repr

/-- The key of an object field: `ast.ObjectFieldID` carries an identifier in
`field.Id`; `ast.ObjectFieldStr` carries a string literal in `field.Expr1`
and has `field.Id == nil`. -/
inductive FieldKey where
  | ident (name : String)
  | str (value : String) (kind : StrKind)
deriving DecidableEq, Repr

/-- Go `ast.Location`: 1-based line and column. -/
structure Location where
  line : Nat
  col : Nat
deriving DecidableEq, Repr

/-- Go `ast.LocationRange` (file name omitted: it is never consulted). -/
structure LocationRange where
  lbegin : Location
  lend : Location
deriving DecidableEq, Repr

/-- Exact decimal value of a number literal: `mant / 10 ^ exp`, kept
normalized (no trailing zero digits in the fractional part), modelling the
value the go-jsonnet lexer stores for a number token.  The Go AST stores a
float64; we idealize it as the exact decimal value, which agrees with
float64 round-tripping on every number used in the concrete proofs below. -/
structure Decimal where
  mant : Nat
  exp : Nat
deriving DecidableEq, Repr

/-! The jsonnet AST node shapes consumed by the visitor.  Wrapper kinds the
claims never reach (`Apply`, `ApplyBrace`, `Local`, `Function`, `Index`,
`Slice`, comprehensions, …) are omitted; `binary` covers the `base + {...}`
shape of real params files.  Only `object` carries its `LocationRange`,
because the Go code consults locations of object nodes only. -/
mutual
inductive Node where
  | object (fields : Fields) (loc : LocationRange)
  | array (elems : NodeList)
  | binary (left right : Node)
  | litNum (val : Decimal)
  | litBool (b : Bool)
  | litStr (value : String) (kind : StrKind)
  | litNull
  | varN (name : String)
  | selfN
  | importN (path : String)
inductive Fields where
  | nil
  | cons (key : FieldKey) (expr2 : Node) (rest : Fields)
inductive NodeList where
  | nil
  | cons (hd : Node) (tl : NodeList)
end

deriving instance DecidableEq for Node
deriving instance DecidableEq for Fields
deriving instance DecidableEq for NodeList

deriving instance DecidableEq for Except

/-- Build a `Fields` list from a `List` of key/value pairs. -/
def Fields.ofList : List (FieldKey × Node) → Fields
  | [] => .nil
  | e :: rest => .cons e.1 e.2 (Fields.ofList rest)

/-- Build a `NodeList` from a `List` of nodes. -/
def NodeList.ofList : List Node → NodeList
  | [] => .nil
  | n :: rest => .cons n (NodeList.ofList rest)

/-- An `*ast.Object` as the Go code passes it around: its field list and its
location range. -/
abbrev ObjData := Fields × LocationRange

/-- Go `const componentsID = "components"`. -/
def componentsID : String := "components"

/-- Go `field.Id`: the identifier of an `ObjectFieldID` field, `nil` (`none`)
for a string-keyed field. -/
def fieldKeyId : FieldKey → Option String
  | .ident n => some n
  | .str _ _ => none

-- ---------------------------------------------------------------------------
-- Scalar literal codec: model of the external lexer on scalar literal texts
-- and of Go's strconv formatting used by `visitParamValue`.

/-- Decimal digits to a natural number (the value of a digit string). -/
def digitsToNat (l : List Char) : Nat :=
  l.foldl (fun a c => a * 10 + (c.toNat - '0'.toNat)) 0

/-- Drop trailing `'0'` characters. -/
def stripTrailingZeros (l : List Char) : List Char :=
  (l.reverse.dropWhile (fun c => c = '0')).reverse

/-- Combine integer-part and fractional-part digit strings into the exact
normalized decimal value. -/
def mkDecimal (ipart fpart : List Char) : Decimal :=
  let f := stripTrailingZeros fpart
  ⟨digitsToNat (ipart ++ f), f.length⟩

/-- Model of the external go-jsonnet parser on a scalar literal text as it
appears as a parameter value: `true`/`false`, a double-quoted string without
escapes, or a decimal number literal (digits, optionally a dot and digits).
Anything else is outside the modelled grammar. -/
def parseScalar (s : String) : Option Node :=
  if s = "true" then some (.litBool true)
  else if s = "false" then some (.litBool false)
  else
    match s.toList with
    | '"' :: rest =>
        if rest.getLast? = some '"' then
          let interior := rest.dropLast
          if interior.all (fun c => c ≠ '"' ∧ c ≠ '\\' ∧ c ≠ '\n') then
            some (.litStr (String.mk interior) .double)
          else none
        else none
    | cs =>
        let ipart := cs.takeWhile Char.isDigit
        let rest := cs.dropWhile Char.isDigit
        if ipart = [] then none
        else
          match rest with
          | [] => some (.litNum ⟨digitsToNat ipart, 0⟩)
          | '.' :: fpart =>
              if fpart ≠ [] ∧ fpart.all Char.isDigit then
                some (.litNum (mkDecimal ipart fpart))
              else none
          | _ => none

/-- Left-pad a digit string with `'0'` up to length `n`. -/
def padLeft (s : List Char) (n : Nat) : List Char :=
  List.replicate (n - s.length) '0' ++ s

/-- Model of `strconv.FormatFloat(v, 'f', -1, 64)` on the exact decimal
value: plain decimal notation, minimal digits, no exponent. -/
def formatDecimal (d : Decimal) : String :=
  if d.exp = 0 then Nat.repr d.mant
  else
    let digits := padLeft (Nat.repr d.mant).toList (d.exp + 1)
    String.mk (digits.take (digits.length - d.exp)) ++ "." ++
      String.mk (digits.drop (digits.length - d.exp))

-- ---------------------------------------------------------------------------
-- params.go, visitor part (`visit`, `visitComponentsObj`).

/-! `visit` (and its loops over object fields and array elements): carries
the `**ast.Object` out-parameter as an accumulator; writing to it is
modelled by returning the updated accumulator.  A field whose `Id` is
`components` is matched directly (after which the field loop returns); any
other field is descended into via `visitObjectField`, whose `Method`,
`Params`, `Expr1`, and `Expr3` visits are no-ops on the node shapes of this
model (`Expr1` can only be the key string literal), leaving the `Expr2`
visit. -/
mutual
def visit : Node → Option ObjData → Except String (Option ObjData)
  | .object fields _, acc => visitFieldsSearch fields acc
  | .array elems, acc => visitNodeList elems acc
  | .binary l r, acc => do
      let a ← visit l acc
      visit r a
  | .litNum _, acc => .ok acc
  | .litBool _, acc => .ok acc
  | .litStr _ _, acc => .ok acc
  | .litNull, acc => .ok acc
  | .varN _, acc => .ok acc
  | .selfN, acc => .ok acc
  | .importN _, acc => .ok acc
termination_by structural n => n
def visitFieldsSearch : Fields → Option ObjData → Except String (Option ObjData)
  | .nil, acc => .ok acc
  | .cons k e2 rest, acc =>
      match fieldKeyId k with
      | some i =>
          if i = componentsID then
            match e2 with
            | .object ofs oloc => .ok (some (ofs, oloc))
            | _ => .error ("Expected " ++ componentsID ++ " node type to be object")
          else do
            let a ← visit e2 acc
            visitFieldsSearch rest a
      | none => do
          let a ← visit e2 acc
          visitFieldsSearch rest a
termination_by structural fs => fs
def visitNodeList : NodeList → Option ObjData → Except String (Option ObjData)
  | .nil, acc => .ok acc
  | .cons h t, acc => do
      let a ← visit h acc
      visitNodeList t a
termination_by structural l => l
end

/-- Go `visitObjectField` on the node shapes of this model: visiting `Method`,
optional parameter defaults, `Expr1` (the key literal, if any) and `Expr3`
leaves the accumulator unchanged, so only the `Expr2` visit remains. -/
def visitObjectField (f : FieldKey × Node) (acc : Option ObjData) :
    Except String (Option ObjData) :=
  visit f.2 acc

/-- Go `visitComponentsObj`, minus the call to the external parser: takes the
already-parsed root.  (The Go function also threads the component name into
the parser as a file name, which has no semantic effect.) -/
def visitComponentsObj (root : Node) : Except String ObjData := do
  let res ← visit root none
  match res with
  | some o => .ok o
  | none => .error ("Could not find object node: " ++ componentsID)

-- ---------------------------------------------------------------------------
-- params.go, codec part.

/-- Go `type Params map[string]string`, represented as an association list in
insertion order; Go map iteration order is unobservable because every
consumer either looks up keys or sorts them. -/
abbrev Params := List (String × String)

/-- Look up a key in an association list (leftmost binding wins). -/
def lookupAL {β : Type} : List (String × β) → String → Option β
  | [], _ => none
  | e :: rest, k => if e.1 = k then some e.2 else lookupAL rest k

/-- Go map assignment `m[k] = v`: replace the binding if present, otherwise
add it. -/
def insertAL {β : Type} (ps : List (String × β)) (k : String) (v : β) :
    List (String × β) :=
  if (lookupAL ps k).isSome then
    ps.map (fun e => if e.1 = k then (k, v) else e)
  else ps ++ [(k, v)]

/-- Go `getFieldID`. -/
def getFieldID (k : FieldKey) : Except String String :=
  match k with
  | .str v kind =>
      match kind with
      | .single => .ok v
      | .double => .ok v
      | .block => .error "Found unsupported LiteralString type"
  | .ident n => .ok n

/-- Go `hasComponent`. -/
def hasComponent (component : String) (k : FieldKey) : Except String Bool := do
  let id ← getFieldID k
  .ok (id = component)

/-- Go `visitParamValue`: number via `strconv.FormatFloat(v, 'f', -1, 64)`,
boolean via `strconv.FormatBool`, single- or double-quoted string re-quoted
with double quotes; every other node kind is an error. -/
def visitParamValue : Node → Except String String
  | .litNum v => .ok (formatDecimal v)
  | .litBool b => .ok (if b then "true" else "false")
  | .litStr v kind =>
      match kind with
      | .single => .ok ("\"" ++ v ++ "\"")
      | .double => .ok ("\"" ++ v ++ "\"")
      | .block => .error "Found unsupported LiteralString type"
  | _ => .error "Found an unsupported param AST node type"

/-- The field loop of `visitParams`: fields with `field.Id != nil` have
their value decoded and stored under `params[key] = val`; fields without an
identifier are skipped. -/
def visitParamsFields : Fields → Params → Except String Params
  | .nil, ps => .ok ps
  | .cons k e2 rest, ps =>
      match fieldKeyId k with
      | some key => do
          let v ← visitParamValue e2
          visitParamsFields rest (insertAL ps key v)
      | none => visitParamsFields rest ps

/-- Go `visitParams`. -/
def visitParams : Node → Except String (Params × LocationRange)
  | .object fields loc => do
      let ps ← visitParamsFields fields []
      .ok (ps, loc)
  | _ => .error "Expected component node type to be object"

/-- The field loop of `visitAllParams`. -/
def visitAllParamsFields :
    Fields → List (String × Params) → Except String (List (String × Params))
  | .nil, acc => .ok acc
  | .cons k e2 rest, acc => do
      let pl ← visitParams e2
      let id ← getFieldID k
      visitAllParamsFields rest (insertAL acc id pl.1)

/-- Go `visitAllParams`. -/
def visitAllParams (components : ObjData) : Except String (List (String × Params)) :=
  visitAllParamsFields components.1 []

-- ---------------------------------------------------------------------------
-- `sort.Strings` and `writeParams`.

/-- Lexicographic code-point order on char lists (UTF-8 byte order and
code-point order agree), modelling Go string `<`. -/
def listLe : List Char → List Char → Bool
  | [], _ => true
  | _ :: _, [] => false
  | a :: as, b :: bs =>
      if a.toNat < b.toNat then true
      else if b.toNat < a.toNat then false
      else listLe as bs

/-- Go string `<=`. -/
def strLe (a b : String) : Bool := listLe a.toList b.toList

/-- Insert into a sorted list. -/
def insertSorted (x : String) : List String → List String
  | [] => [x]
  | y :: ys => if strLe x y then x :: y :: ys else y :: insertSorted x ys

/-- Go `sort.Strings`: ascending lexicographic sort (insertion sort; Go's
choice of algorithm is unobservable since map keys are unique). -/
def sortStrings (l : List String) : List String :=
  l.foldr insertSorted []

/-- The Params in sorted-key order, as `writeParams` renders them. -/
def sortParams (ps : Params) : Params :=
  (sortStrings (ps.map Prod.fst)).map (fun k => (k, (lookupAL ps k).getD ""))

/-- One rendered parameter line: `indent` spaces, then `key: value,`. -/
def paramLine (indent : Nat) (k v : String) : String :=
  String.mk (List.replicate indent ' ') ++ k ++ ": " ++ v ++ ","

/-- Go `writeParams` as the list of lines between the leading and trailing
`"\n"` of the Go function's returned string: one line per key in sorted
order; for empty Params the Go function returns `"\n\n"`, i.e. a single
empty line. -/
def writeParams (indent : Nat) (ps : Params) : List String :=
  match sortParams ps with
  | [] => [""]
  | es => es.map (fun e => paramLine indent e.1 e.2)

-- ---------------------------------------------------------------------------
-- `SanitizeComponent` and the component store.

/-- Modelled from the spec: `utils.IsASCIIIdentifier` (the repository's
`utils` package is not under `src/`) — "Component name is quoted only if it
is not a valid bare identifier (ASCII identifier rule)": a letter or
underscore followed by letters, digits or underscores. -/
def isASCIIIdentifier (s : String) : Bool :=
  match s.toList with
  | [] => false
  | c :: cs =>
      (c.isAlpha || c = '_') && cs.all (fun d => d.isAlpha || d.isDigit || d = '_')

/-- Go `SanitizeComponent`. -/
def sanitizeComponent (component : String) : String :=
  if !isASCIIIdentifier component then "\"" ++ component ++ "\"" else component

/-- The duplicate-check loop of `appendComponent`. -/
def checkDuplicate (component : String) : Fields → Except String Unit
  | .nil => .ok ()
  | .cons k _ rest => do
      let h ← hasComponent component k
      if h then
        .error ("Component parameters for '" ++ component ++ "' already exists")
      else checkDuplicate component rest

/-- Go `appendComponent`: the snippet is given as its split lines together with
its parsed root.  The Go code builds the new block as one string with
embedded newlines, inserts it at index `End.Line - 1` of the line slice and
joins on `"\n"`; inserting the block's split lines yields the identical
joined text. -/
def appendComponent (component : String) (lines : List String) (root : Node)
    (params : Params) : Except String (List String) := do
  let componentsNode ← visitComponentsObj root
  let _ ← checkDuplicate component componentsNode.1
  let buffer := ("    " ++ sanitizeComponent component ++ ": \x7b") ::
    (writeParams 6 params ++ ["    \x7d,"])
  let insertLine := componentsNode.2.lend.line - 1
  .ok (lines.take insertLine ++ buffer ++ lines.drop insertLine)

/-- The component-scan loop shared by `getComponentParams` and
`getEnvironmentParams`: first field whose id equals the component name. -/
def findComponentField (component : String) : Fields → Except String (Option Node)
  | .nil => .ok none
  | .cons k e2 rest => do
      let h ← hasComponent component k
      if h then .ok (some e2) else findComponentField component rest

/-- Go `getComponentParams` (on the parsed root). -/
def getComponentParams (component : String) (root : Node) :
    Except String (Params × LocationRange) := do
  let componentsNode ← visitComponentsObj root
  match ← findComponentField component componentsNode.1 with
  | some e2 => visitParams e2
  | none =>
      .error ("Could not find component identifier '" ++ component ++
        "' when attempting to set params")

/-- Go `getAllComponentParams` (on the parsed root). -/
def getAllComponentParams (root : Node) : Except String (List (String × Params)) := do
  let componentsNode ← visitComponentsObj root
  visitAllParams componentsNode

/-- The merge loop of `setComponentParams`/`setEnvironmentParams`: every
current key absent from the incoming map is added (`params[k] = v`). -/
def mergeCurrent (current incoming : Params) : Params :=
  current.foldl
    (fun ps e => if (lookupAL ps e.1).isSome then ps else insertAL ps e.1 e.2)
    incoming

/-- Go `setComponentParams`: replaces lines `[loc.Begin.Line, loc.End.Line - 1)`
(0-based) of the snippet with the rendered merged Params.  The Go code glues
`strings.Join(lines[:Begin.Line])`, the `writeParams` string (wrapped in
newlines) and `strings.Join(lines[End.Line-1:])`; on the line representation
this is `take`/`drop` around the rendered lines. -/
def setComponentParams (component : String) (lines : List String) (root : Node)
    (params : Params) : Except String (List String) := do
  let res ← getComponentParams component root
  let merged := mergeCurrent res.1 params
  .ok (lines.take res.2.lbegin.line ++ writeParams 6 merged ++
    lines.drop (res.2.lend.line - 1))

/-- Go `getEnvironmentParams` (on the parsed root): unlike
`getComponentParams`, a missing component is not an error — it returns empty
Params, a location just before the components object's closing brace, and
`false`. -/
def getEnvironmentParams (component : String) (root : Node) :
    Except String (Params × LocationRange × Bool) := do
  let n ← visitComponentsObj root
  match ← findComponentField component n.1 with
  | some e2 => do
      let pl ← visitParams e2
      .ok (pl.1, pl.2, true)
  | none =>
      let loc : LocationRange :=
        ⟨⟨n.2.lend.line - 1, n.2.lend.col⟩, ⟨n.2.lend.line, n.2.lend.col⟩⟩
      .ok ([], loc, false)

/-- Go `setEnvironmentParams`: for a missing component the rendered block is
`name +: { ... },` (the Go code wraps it in `"\n"`s; on the line
representation those are the line boundaries around the block). -/
def setEnvironmentParams (component : String) (lines : List String) (root : Node)
    (params : Params) : Except String (List String) := do
  let res ← getEnvironmentParams component root
  let merged := mergeCurrent res.1 params
  let paramsSnippet :=
    if !res.2.2 then
      ("    " ++ sanitizeComponent component ++ " +: \x7b") ::
        (writeParams 6 merged ++ ["    \x7d,"])
    else writeParams 6 merged
  .ok (lines.take res.2.1.lbegin.line ++ paramsSnippet ++
    lines.drop (res.2.1.lend.line - 1))

-- ---------------------------------------------------------------------------
-- Canonically rendered parameter documents.  `docLines` is the split text of
-- a params file in the layout ksonnet itself writes; `docAST` is the AST
-- (with source locations) that the external go-jsonnet parser produces for
-- that text — the modelling of the out-of-scope parser on this family.

/-- One component entry: its name and its parameter fields as key/value
texts. -/
structure Comp where
  name : String
  entries : Params
deriving DecidableEq, Repr

/-- A canonical params document: `plus := false` is a component params file
(`components: { name: {...} }`), `plus := true` an environment params file
(`components +: { name +: {...} }`). -/
structure Doc where
  plus : Bool
  comps : List Comp
deriving DecidableEq, Repr

/-- The parsed node of a parameter value text (only applied to texts inside
the modelled grammar). -/
def entryNode (v : String) : Node :=
  (parseScalar v).getD .litNull

/-- The rendered parameter lines of a component block: one `key: value,`
line at indent 6 per entry; an entry-less block renders as the single empty
line that `writeParams` produces for empty Params. -/
def entryLines (es : Params) : List String :=
  match es with
  | [] => [""]
  | _ => es.map (fun e => paramLine 6 e.1 e.2)

/-- The header line of a component block. -/
def compHeader (plus : Bool) (name : String) : String :=
  "    " ++ name ++ (if plus then " +: \x7b" else ": \x7b")

/-- The rendered lines of a component block. -/
def compLines (plus : Bool) (c : Comp) : List String :=
  compHeader plus c.name :: (entryLines c.entries ++ ["    \x7d,"])

/-- Number of lines of a component block. -/
def compLen (c : Comp) : Nat :=
  (entryLines c.entries).length + 2

/-- Total number of lines of a list of component blocks. -/
def prefixLen (cs : List Comp) : Nat :=
  (cs.map compLen).sum

/-- The opening line of the components object. -/
def componentsOpen (plus : Bool) : String :=
  if plus then "  components +: \x7b" else "  components: \x7b"

/-- The split text of a canonical params document. -/
def docLines (d : Doc) : List String :=
  "\x7b" :: componentsOpen d.plus ::
    ((d.comps.map (compLines d.plus)).flatten ++ ["  \x7d,", "\x7d"])

/-- The 1-based line number of the components object's closing brace. -/
def componentsEnd (d : Doc) : Nat :=
  3 + prefixLen d.comps

/-- The AST fields of one component's parameter object. -/
def compFieldsList (es : Params) : List (FieldKey × Node) :=
  es.map (fun e => (FieldKey.ident e.1, entryNode e.2))

/-- The AST field of one component block whose header is on `startLine`:
its value object spans from the header line (where its `{` sits) to the
`    },` line (whose `}` ends at column 6). -/
def compField (plus : Bool) (startLine : Nat) (c : Comp) : FieldKey × Node :=
  (FieldKey.ident c.name,
   .object (Fields.ofList (compFieldsList c.entries))
     ⟨⟨startLine, c.name.length + (if plus then 9 else 7)⟩,
      ⟨startLine + (entryLines c.entries).length + 1, 6⟩⟩)

/-- The AST fields of the components object, with the first block's header
on line `startLine`. -/
def compsFields (plus : Bool) : Nat → List Comp → List (FieldKey × Node)
  | _, [] => []
  | s, c :: rest => compField plus s c :: compsFields plus (s + compLen c) rest

/-- Location of the components object: its `{` sits at the end of line 2,
its `}` on the `  },` line at column 3 (end column 4). -/
def componentsLoc (d : Doc) : LocationRange :=
  ⟨⟨2, if d.plus then 17 else 15⟩, ⟨componentsEnd d, 4⟩⟩

/-- The components object node of a canonical document. -/
def componentsNodeOf (d : Doc) : Node :=
  .object (Fields.ofList (compsFields d.plus 3 d.comps)) (componentsLoc d)

/-- The parsed root of a canonical document. -/
def docAST (d : Doc) : Node :=
  .object (Fields.ofList [(FieldKey.ident componentsID, componentsNodeOf d)])
    ⟨⟨1, 1⟩, ⟨componentsEnd d + 1, 2⟩⟩

-- Well-formedness of documents and parameter maps.

/-- Decode a parameter value text the way a read-back does: parse it with
the external parser, then re-encode with `visitParamValue`. -/
def decode1 (v : String) : Option String :=
  (parseScalar v).bind (fun n => (visitParamValue n).toOption)

/-- A value text inside the modelled scalar grammar (its parse decodes). -/
def decodableScalar (v : String) : Bool :=
  (decode1 v).isSome

/-- A canonical scalar text: decoding its parse gives the text back
unchanged (`"1"`, `"2.5"`, `"true"`, `"\"a\""`, …; not `"2.50"`). -/
def canonicalScalar (v : String) : Bool :=
  decode1 v == some v

/-- All-distinct string list. -/
def distinct : List String → Bool
  | [] => true
  | x :: xs => (!xs.contains x) && distinct xs

/-- Well-formed component: bare-identifier name, bare-identifier distinct
parameter keys, parameter values inside the modelled scalar grammar. -/
def compWF (c : Comp) : Bool :=
  isASCIIIdentifier c.name &&
  c.entries.all (fun e => isASCIIIdentifier e.1 && decodableScalar e.2) &&
  distinct (c.entries.map Prod.fst)

/-- Well-formed document: well-formed components with distinct names. -/
def docWF (d : Doc) : Bool :=
  d.comps.all compWF && distinct (d.comps.map (fun c => c.name))

/-- Incoming Params whose keys are distinct bare identifiers and whose
values are canonical scalar texts. -/
def paramsCanon (ps : Params) : Bool :=
  ps.all (fun e => isASCIIIdentifier e.1 && canonicalScalar e.2) &&
  distinct (ps.map Prod.fst)

/-- Decoded view of a component's stored entries, as `visitParams` returns
them. -/
def decodedEntries (es : Params) : Params :=
  es.map (fun e => (e.1, (decode1 e.2).getD ""))

/-- The operation `docAppend d c ps`: the structural effect of appending component `c`
with sorted-rendered params `ps` at the end of the components object. -/
def docAppend (d : Doc) (c : String) (ps : Params) : Doc :=
  ⟨d.plus, d.comps ++ [⟨c, sortParams ps⟩]⟩

-- ---------------------------------------------------------------------------
-- General lemmas.

theorem bindE_ok {α β : Type} (v : α) (k : α → Except String β) :
    (Except.ok v >>= k) = k v := rfl

theorem bindE_error {α β : Type} (e : String) (k : α → Except String β) :
    ((Except.error e : Except String α) >>= k) = .error e := rfl

theorem bindE_ok_inv {α β : Type} {m : Except String α} {k : α → Except String β}
    {r : β} (h : (m >>= k) = .ok r) : ∃ v, m = .ok v ∧ k v = .ok r := by
  cases m with
  | ok v => exact ⟨v, rfl, h⟩
  | error e => exact absurd h (by simp [bindE_error])

theorem lookupAL_append {β : Type} (a b : List (String × β)) (k : String) :
    lookupAL (a ++ b) k =
      if (lookupAL a k).isSome then lookupAL a k else lookupAL b k := by
  induction a with
  | nil => simp [lookupAL]
  | cons e a ih =>
      by_cases h : e.1 = k
      · simp [lookupAL, h]
      · simp [lookupAL, h, ih]

theorem lookupAL_isSome_iff {β : Type} (ps : List (String × β)) (k : String) :
    (lookupAL ps k).isSome = true ↔ k ∈ ps.map Prod.fst := by
  induction ps with
  | nil => simp [lookupAL]
  | cons e ps ih =>
      by_cases h : e.1 = k
      · simp [lookupAL, h]
      · simp [lookupAL, h, ih, Ne.symm h]

theorem lookupAL_eq_none_iff {β : Type} (ps : List (String × β)) (k : String) :
    lookupAL ps k = none ↔ k ∉ ps.map Prod.fst := by
  rw [← lookupAL_isSome_iff]
  cases h : lookupAL ps k <;> simp [h]

theorem lookupAL_mem {β : Type} {ps : List (String × β)} {k : String} {v : β}
    (h : lookupAL ps k = some v) : (k, v) ∈ ps := by
  induction ps with
  | nil => simp [lookupAL] at h
  | cons e ps ih =>
      obtain ⟨a, b⟩ := e
      by_cases he : a = k
      · subst he
        simp [lookupAL] at h
        subst h
        exact List.mem_cons_self _ _
      · simp [lookupAL, he] at h
        exact List.mem_cons_of_mem _ (ih h)

theorem lookupAL_map_mk (keys : List String) (f : String → String) (k : String) :
    lookupAL (keys.map (fun x => (x, f x))) k =
      if k ∈ keys then some (f k) else none := by
  induction keys with
  | nil => simp [lookupAL]
  | cons x keys ih =>
      by_cases h : x = k
      · simp [lookupAL, h]
      · simp [lookupAL, h, ih, Ne.symm h]

theorem insertSorted_perm (x : String) (l : List String) :
    (insertSorted x l).Perm (x :: l) := by
  induction l with
  | nil => simp [insertSorted]
  | cons y ys ih =>
      simp only [insertSorted]
      split
      · exact List.Perm.refl _
      · exact ((ih.cons y).trans (List.Perm.swap x y ys)).symm.symm

theorem sortStrings_perm (l : List String) : (sortStrings l).Perm l := by
  induction l with
  | nil => exact List.Perm.refl _
  | cons x xs ih =>
      exact (insertSorted_perm x (sortStrings xs)).trans (ih.cons x)

theorem mem_sortStrings_iff (l : List String) (k : String) :
    k ∈ sortStrings l ↔ k ∈ l :=
  (sortStrings_perm l).mem_iff

theorem lookupAL_sortParams (ps : Params) (k : String) :
    lookupAL (sortParams ps) k = lookupAL ps k := by
  unfold sortParams
  rw [lookupAL_map_mk]
  by_cases h : k ∈ ps.map Prod.fst
  · have h2 : k ∈ sortStrings (ps.map Prod.fst) := (mem_sortStrings_iff _ _).mpr h
    have hs : (lookupAL ps k).isSome = true := (lookupAL_isSome_iff ps k).mpr h
    cases hv : lookupAL ps k with
    | none => rw [hv] at hs; simp at hs
    | some v => simp [h2, hv]
  · have h2 : k ∉ sortStrings (ps.map Prod.fst) :=
      fun hc => h ((mem_sortStrings_iff _ _).mp hc)
    have hn : lookupAL ps k = none := (lookupAL_eq_none_iff ps k).mpr h
    simp [h2, hn]

theorem distinct_iff_nodup (l : List String) : distinct l = true ↔ l.Nodup := by
  induction l with
  | nil => simp [distinct]
  | cons x xs ih =>
      simp [distinct, ih, List.contains, List.elem_iff]

theorem insertAL_absent {β : Type} {ps : List (String × β)} {k : String} (v : β)
    (h : lookupAL ps k = none) : insertAL ps k v = ps ++ [(k, v)] := by
  simp [insertAL, h]

theorem lookupAL_mergeCurrent (cur : Params) (k : String) :
    ∀ inc : Params, lookupAL (mergeCurrent cur inc) k =
      if (lookupAL inc k).isSome then lookupAL inc k else lookupAL cur k := by
  induction cur with
  | nil =>
      intro inc
      simp only [mergeCurrent, List.foldl_nil, lookupAL]
      cases h : lookupAL inc k <;> simp [h]
  | cons e cur ih =>
      intro inc
      have step : mergeCurrent (e :: cur) inc =
          mergeCurrent cur
            (if (lookupAL inc e.1).isSome then inc else insertAL inc e.1 e.2) := by
        simp [mergeCurrent]
      rw [step]
      by_cases ha : (lookupAL inc e.1).isSome = true
      · rw [if_pos ha, ih inc]
        by_cases hk : e.1 = k
        · subst hk
          simp [lookupAL, ha]
        · simp [lookupAL, hk]
      · have hnone : lookupAL inc e.1 = none := by
          cases h : lookupAL inc e.1 with
          | none => rfl
          | some v => rw [h] at ha; simp at ha
        rw [if_neg ha, insertAL_absent e.2 hnone, ih _]
        rw [lookupAL_append]
        by_cases hk : e.1 = k
        · subst hk
          simp [hnone, lookupAL]
        · by_cases hik : (lookupAL inc k).isSome = true
          · simp [hik, lookupAL, hk]
          · have hiknone : lookupAL inc k = none := by
              cases h : lookupAL inc k with
              | none => rfl
              | some v => rw [h] at hik; simp at hik
            simp [hiknone, lookupAL, hk, Ne.symm]

-- ---------------------------------------------------------------------------
-- Lemmas about the canonical document family.

theorem sanitizeComponent_ident {c : String} (h : isASCIIIdentifier c = true) :
    sanitizeComponent c = c := by
  simp [sanitizeComponent, h]

theorem mergeCurrent_nil (p : Params) : mergeCurrent [] p = p := rfl

theorem compLines_length (plus : Bool) (c : Comp) :
    (compLines plus c).length = compLen c := by
  simp [compLines, compLen]

theorem flatten_compLines_length (plus : Bool) (cs : List Comp) :
    ((cs.map (compLines plus)).flatten).length = prefixLen cs := by
  induction cs with
  | nil => simp [prefixLen]
  | cons c cs ih => simp [prefixLen, compLines_length, ih]

theorem sum_compLines_length (plus : Bool) (cs : List Comp) :
    (cs.map (List.length ∘ compLines plus)).sum = prefixLen cs := by
  induction cs with
  | nil => simp [prefixLen]
  | cons c cs ih => simp [prefixLen, Function.comp, compLines_length, ih]

theorem visitComponentsObj_docAST (d : Doc) :
    visitComponentsObj (docAST d) =
      .ok (Fields.ofList (compsFields d.plus 3 d.comps), componentsLoc d) := rfl

theorem findComponentField_skip {c : String} {l rest : List (FieldKey × Node)}
    (h : ∀ e ∈ l, ∃ nm, e.1 = FieldKey.ident nm ∧ nm ≠ c) :
    findComponentField c (Fields.ofList (l ++ rest)) =
      findComponentField c (Fields.ofList rest) := by
  induction l with
  | nil => rfl
  | cons e l ih =>
      obtain ⟨nm, hk, hne⟩ := h e (List.mem_cons_self e l)
      show findComponentField c (Fields.cons e.1 e.2 (Fields.ofList (l ++ rest))) = _
      rw [hk]
      simp only [findComponentField, hasComponent, getFieldID, bindE_ok, hne,
        decide_eq_true_eq, if_neg]
      exact ih (fun x hx => h x (List.mem_cons_of_mem _ hx))

theorem findComponentField_hit (c : String) (v : Node)
    (rest : List (FieldKey × Node)) :
    findComponentField c (Fields.ofList ((FieldKey.ident c, v) :: rest)) =
      .ok (some v) := by
  simp [Fields.ofList, findComponentField, hasComponent, getFieldID, bindE_ok]

theorem findComponentField_nil (c : String) :
    findComponentField c (Fields.ofList []) = .ok none := rfl

theorem checkDuplicate_ok {c : String} {l : List (FieldKey × Node)}
    (h : ∀ e ∈ l, ∃ nm, e.1 = FieldKey.ident nm ∧ nm ≠ c) :
    checkDuplicate c (Fields.ofList l) = .ok () := by
  induction l with
  | nil => rfl
  | cons e l ih =>
      obtain ⟨nm, hk, hne⟩ := h e (List.mem_cons_self e l)
      show checkDuplicate c (Fields.cons e.1 e.2 (Fields.ofList l)) = _
      rw [hk]
      simp only [checkDuplicate, hasComponent, getFieldID, bindE_ok, hne,
        decide_eq_true_eq, if_neg]
      exact ih (fun x hx => h x (List.mem_cons_of_mem _ hx))

theorem compsFields_append (plus : Bool) (l1 l2 : List Comp) :
    ∀ s, compsFields plus s (l1 ++ l2) =
      compsFields plus s l1 ++ compsFields plus (s + prefixLen l1) l2 := by
  induction l1 with
  | nil => intro s; simp [compsFields, prefixLen]
  | cons c l1 ih =>
      intro s
      show compField plus s c :: compsFields plus (s + compLen c) (l1 ++ l2) = _
      rw [ih (s + compLen c)]
      have harg : s + compLen c + prefixLen l1 = s + prefixLen (c :: l1) := by
        simp [prefixLen]
        omega
      rw [harg]
      rfl

theorem mem_compsFields {plus : Bool} {cs : List Comp} :
    ∀ {s : Nat} {e : FieldKey × Node}, e ∈ compsFields plus s cs →
      ∃ x ∈ cs, e.1 = FieldKey.ident x.name := by
  induction cs with
  | nil => intro s e h; simp [compsFields] at h
  | cons c cs ih =>
      intro s e h
      simp only [compsFields, List.mem_cons] at h
      rcases h with h | h
      · exact ⟨c, List.mem_cons_self _ _, by rw [h]; rfl⟩
      · obtain ⟨x, hx, he⟩ := ih h
        exact ⟨x, List.mem_cons_of_mem _ hx, he⟩

theorem compsFields_scan_hyp {plus : Bool} {cs : List Comp} {c : String} {s : Nat}
    (h : ∀ x ∈ cs, x.name ≠ c) :
    ∀ e ∈ compsFields plus s cs, ∃ nm, e.1 = FieldKey.ident nm ∧ nm ≠ c := by
  intro e he
  obtain ⟨x, hx, hk⟩ := mem_compsFields he
  exact ⟨x.name, hk, h x hx⟩

theorem visitParamsFields_decodes (es : Params) :
    ∀ acc : Params,
      (∀ e ∈ es, decodableScalar e.2 = true) →
      (∀ e ∈ es, lookupAL acc e.1 = none) →
      distinct (es.map Prod.fst) = true →
      visitParamsFields (Fields.ofList (compFieldsList es)) acc =
        .ok (acc ++ decodedEntries es) := by
  induction es with
  | nil =>
      intro acc _ _ _
      simp [compFieldsList, Fields.ofList, visitParamsFields, decodedEntries]
  | cons e es ih =>
      intro acc hdec hacc hdist
      have hd : decodableScalar e.2 = true := hdec e (List.mem_cons_self _ _)
      unfold decodableScalar at hd
      cases hp : parseScalar e.2 with
      | none => rw [decode1, hp] at hd; simp at hd
      | some n =>
          cases hv : visitParamValue n with
          | error msg =>
              rw [decode1, hp] at hd
              simp [hv, Except.toOption] at hd
          | ok v0 =>
              have hdec1 : decode1 e.2 = some v0 := by
                simp [decode1, hp, hv, Except.toOption]
              have hstep : visitParamValue (entryNode e.2) = .ok v0 := by
                simp [entryNode, hp, hv]
              have hlook : lookupAL acc e.1 = none := hacc e (List.mem_cons_self _ _)
              have hnodup := (distinct_iff_nodup _).mp hdist
              rw [List.map_cons, List.nodup_cons] at hnodup
              obtain ⟨hnotin, hnodup2⟩ := hnodup
              show visitParamsFields
                  (Fields.cons (FieldKey.ident e.1) (entryNode e.2)
                    (Fields.ofList (compFieldsList es))) acc = _
              simp only [visitParamsFields, fieldKeyId, hstep, bindE_ok]
              rw [insertAL_absent v0 hlook]
              have hacc2 : ∀ x ∈ es, lookupAL (acc ++ [(e.1, v0)]) x.1 = none := by
                intro x hx
                rw [lookupAL_append, hacc x (List.mem_cons_of_mem _ hx)]
                have : x.1 ≠ e.1 := by
                  intro hcontr
                  exact hnotin (hcontr ▸ List.mem_map_of_mem Prod.fst hx)
                simp [lookupAL, Ne.symm this]
              rw [ih (acc ++ [(e.1, v0)])
                    (fun x hx => hdec x (List.mem_cons_of_mem _ hx)) hacc2
                    ((distinct_iff_nodup _).mpr hnodup2)]
              simp [decodedEntries, hdec1]

theorem visitParams_compField (plus : Bool) (s : Nat) (c : Comp)
    (hdec : ∀ e ∈ c.entries, decodableScalar e.2 = true)
    (hdist : distinct (c.entries.map Prod.fst) = true) :
    visitParams (compField plus s c).2 =
      .ok (decodedEntries c.entries,
        ⟨⟨s, c.name.length + (if plus then 9 else 7)⟩,
         ⟨s + (entryLines c.entries).length + 1, 6⟩⟩) := by
  show visitParams (Node.object (Fields.ofList (compFieldsList c.entries)) _) = _
  simp only [visitParams]
  rw [visitParamsFields_decodes c.entries [] hdec (fun e _ => rfl) hdist]
  simp [bindE_ok]

theorem decodedEntries_canonical {es : Params}
    (h : ∀ e ∈ es, canonicalScalar e.2 = true) : decodedEntries es = es := by
  induction es with
  | nil => rfl
  | cons e es ih =>
      have hc := h e (List.mem_cons_self _ _)
      simp only [canonicalScalar, beq_iff_eq] at hc
      simp only [decodedEntries, List.map_cons] at ih ⊢
      rw [ih (fun x hx => h x (List.mem_cons_of_mem _ hx)), hc]
      simp

theorem canonical_decodable {v : String} (h : canonicalScalar v = true) :
    decodableScalar v = true := by
  simp only [canonicalScalar, beq_iff_eq] at h
  simp [decodableScalar, h]

theorem sortParams_keys (ps : Params) :
    (sortParams ps).map Prod.fst = sortStrings (ps.map Prod.fst) := by
  simp only [sortParams, List.map_map]
  show List.map (fun k => k) (sortStrings (ps.map Prod.fst)) = _
  simp

theorem sortParams_distinct {ps : Params} (h : distinct (ps.map Prod.fst) = true) :
    distinct ((sortParams ps).map Prod.fst) = true := by
  rw [sortParams_keys, distinct_iff_nodup]
  exact ((sortStrings_perm _).nodup_iff).mpr ((distinct_iff_nodup _).mp h)

theorem sortParams_all_canonical {ps : Params}
    (h : ∀ e ∈ ps, canonicalScalar e.2 = true) :
    ∀ e ∈ sortParams ps, canonicalScalar e.2 = true := by
  intro e he
  simp only [sortParams, List.mem_map] at he
  obtain ⟨k, hk, he⟩ := he
  have hmem : k ∈ ps.map Prod.fst := (mem_sortStrings_iff _ _).mp hk
  have hs : (lookupAL ps k).isSome = true := (lookupAL_isSome_iff ps k).mpr hmem
  cases hv : lookupAL ps k with
  | none => rw [hv] at hs; simp at hs
  | some v =>
      have : e.2 = v := by rw [← he]; simp [hv]
      rw [this]
      exact h (k, v) (lookupAL_mem hv)

-- Line decompositions of rendered documents around one component block and
-- around the components object's closing brace.

theorem docLines_decomp (plus : Bool) (pre post : List Comp) (cc : Comp) :
    docLines ⟨plus, pre ++ cc :: post⟩ =
      ("\x7b" :: componentsOpen plus ::
        ((pre.map (compLines plus)).flatten ++ [compHeader plus cc.name]))
      ++ (entryLines cc.entries
      ++ ("    \x7d," ::
        ((post.map (compLines plus)).flatten ++ ["  \x7d,", "\x7d"]))) := by
  simp [docLines, compLines, List.append_assoc]

theorem docLines_take_comp (plus : Bool) (pre post : List Comp) (cc : Comp) :
    (docLines ⟨plus, pre ++ cc :: post⟩).take (3 + prefixLen pre) =
      "\x7b" :: componentsOpen plus ::
        ((pre.map (compLines plus)).flatten ++ [compHeader plus cc.name]) := by
  rw [docLines_decomp]
  apply List.take_left'
  simp [flatten_compLines_length, sum_compLines_length]
  omega

theorem docLines_drop_comp (plus : Bool) (pre post : List Comp) (cc : Comp) :
    (docLines ⟨plus, pre ++ cc :: post⟩).drop
        (3 + prefixLen pre + (entryLines cc.entries).length) =
      "    \x7d," :: ((post.map (compLines plus)).flatten ++ ["  \x7d,", "\x7d"]) := by
  rw [docLines_decomp, ← List.append_assoc]
  apply List.drop_left'
  simp [flatten_compLines_length, sum_compLines_length]
  omega

theorem docLines_take_end (d : Doc) :
    (docLines d).take (componentsEnd d - 1) =
      "\x7b" :: componentsOpen d.plus :: (d.comps.map (compLines d.plus)).flatten := by
  have hd : docLines d =
      ("\x7b" :: componentsOpen d.plus :: (d.comps.map (compLines d.plus)).flatten)
        ++ ["  \x7d,", "\x7d"] := by
    simp [docLines]
  rw [hd]
  apply List.take_left'
  simp [flatten_compLines_length, sum_compLines_length, componentsEnd]
  omega

theorem docLines_drop_end (d : Doc) :
    (docLines d).drop (componentsEnd d - 1) = ["  \x7d,", "\x7d"] := by
  have hd : docLines d =
      ("\x7b" :: componentsOpen d.plus :: (d.comps.map (compLines d.plus)).flatten)
        ++ ["  \x7d,", "\x7d"] := by
    simp [docLines]
  rw [hd]
  apply List.drop_left'
  simp [flatten_compLines_length, sum_compLines_length, componentsEnd]
  omega

theorem writeParams_eq_entryLines (ps : Params) :
    writeParams 6 ps = entryLines (sortParams ps) := by
  cases h : sortParams ps <;> simp [writeParams, entryLines, h]

theorem docLines_append_comp (plus : Bool) (cs : List Comp) (c : Comp) :
    docLines ⟨plus, cs ++ [c]⟩ =
      ("\x7b" :: componentsOpen plus :: (cs.map (compLines plus)).flatten)
        ++ (compLines plus c ++ ["  \x7d,", "\x7d"]) := by
  simp [docLines, List.append_assoc]

-- ---------------------------------------------------------------------------
-- Store-level behaviour on the document family.

/-- Lemma: `appendComponent` on a canonical component params file inserts the new
block's lines immediately before the components object's closing-brace line,
yielding the rendered document with the component appended last. -/
theorem appendComponent_doc (d : Doc) (c : String) (p : Params)
    (hplus : d.plus = false) (hc : isASCIIIdentifier c = true)
    (hfresh : ∀ x ∈ d.comps, x.name ≠ c) :
    appendComponent c (docLines d) (docAST d) p = .ok (docLines (docAppend d c p)) := by
  unfold appendComponent
  rw [visitComponentsObj_docAST, bindE_ok]
  rw [checkDuplicate_ok (compsFields_scan_hyp hfresh), bindE_ok]
  simp only [componentsLoc, docLines_take_end, docLines_drop_end]
  obtain ⟨plus, comps⟩ := d
  simp only at hplus
  subst hplus
  rw [docAppend, docLines_append_comp]
  simp only [compLines, compHeader, sanitizeComponent_ident hc,
    writeParams_eq_entryLines]
  simp [List.append_assoc]

/-- Lemma: `getComponentParams` returns the decoded entries of the named component
together with its value object's location. -/
theorem getComponentParams_doc (plus : Bool) (pre post : List Comp) (cc : Comp)
    (hpre : ∀ x ∈ pre, x.name ≠ cc.name)
    (hdec : ∀ e ∈ cc.entries, decodableScalar e.2 = true)
    (hdist : distinct (cc.entries.map Prod.fst) = true) :
    getComponentParams cc.name (docAST ⟨plus, pre ++ cc :: post⟩) =
      .ok (decodedEntries cc.entries,
        ⟨⟨3 + prefixLen pre, cc.name.length + (if plus then 9 else 7)⟩,
         ⟨3 + prefixLen pre + (entryLines cc.entries).length + 1, 6⟩⟩) := by
  unfold getComponentParams
  rw [visitComponentsObj_docAST, bindE_ok]
  show (do
    let x ← findComponentField cc.name (Fields.ofList (compsFields plus 3 (pre ++ cc :: post)))
    match x with
    | some e2 => visitParams e2
    | none => .error ("Could not find component identifier '" ++ cc.name ++
        "' when attempting to set params")) = _
  rw [compsFields_append]
  rw [findComponentField_skip (compsFields_scan_hyp hpre)]
  show (do
    let x ← findComponentField cc.name
      (Fields.ofList ((compField plus (3 + prefixLen pre) cc) ::
        compsFields plus (3 + prefixLen pre + compLen cc) post))
    match x with
    | some e2 => visitParams e2
    | none => .error ("Could not find component identifier '" ++ cc.name ++
        "' when attempting to set params")) = _
  have hkey : compField plus (3 + prefixLen pre) cc =
      (FieldKey.ident cc.name, (compField plus (3 + prefixLen pre) cc).2) := rfl
  rw [hkey, findComponentField_hit, bindE_ok]
  exact visitParams_compField plus (3 + prefixLen pre) cc hdec hdist

theorem findComponentField_none {c : String} {l : List (FieldKey × Node)}
    (h : ∀ e ∈ l, ∃ nm, e.1 = FieldKey.ident nm ∧ nm ≠ c) :
    findComponentField c (Fields.ofList l) = .ok none := by
  have h2 := @findComponentField_skip c l [] h
  rw [List.append_nil] at h2
  rw [h2]
  rfl

/-- Lemma: `getComponentParams` for an absent component is an error. -/
theorem getComponentParams_absent (d : Doc) (c : String)
    (hfresh : ∀ x ∈ d.comps, x.name ≠ c) :
    getComponentParams c (docAST d) =
      .error ("Could not find component identifier '" ++ c ++
        "' when attempting to set params") := by
  unfold getComponentParams
  rw [visitComponentsObj_docAST, bindE_ok]
  show (do
    let x ← findComponentField c (Fields.ofList (compsFields d.plus 3 d.comps))
    match x with
    | some e2 => visitParams e2
    | none => .error ("Could not find component identifier '" ++ c ++
        "' when attempting to set params")) = _
  rw [findComponentField_none (compsFields_scan_hyp hfresh), bindE_ok]

/-- Lemma: `setComponentParams` on a canonical document replaces exactly the named
component's parameter lines with the sorted render of the merged Params. -/
theorem setComponentParams_doc (plus : Bool) (pre post : List Comp) (cc : Comp)
    (p : Params)
    (hpre : ∀ x ∈ pre, x.name ≠ cc.name)
    (hdec : ∀ e ∈ cc.entries, decodableScalar e.2 = true)
    (hdist : distinct (cc.entries.map Prod.fst) = true) :
    setComponentParams cc.name (docLines ⟨plus, pre ++ cc :: post⟩)
        (docAST ⟨plus, pre ++ cc :: post⟩) p =
      .ok (docLines ⟨plus, pre ++
        (⟨cc.name, sortParams (mergeCurrent (decodedEntries cc.entries) p)⟩ : Comp)
          :: post⟩) := by
  unfold setComponentParams
  rw [getComponentParams_doc plus pre post cc hpre hdec hdist, bindE_ok]
  show Except.ok (List.take (3 + prefixLen pre) (docLines ⟨plus, pre ++ cc :: post⟩) ++
      writeParams 6 (mergeCurrent (decodedEntries cc.entries) p) ++
      List.drop (3 + prefixLen pre + (entryLines cc.entries).length)
        (docLines ⟨plus, pre ++ cc :: post⟩)) = _
  rw [docLines_take_comp, docLines_drop_comp, writeParams_eq_entryLines,
    docLines_decomp]
  simp [List.append_assoc]

/-- Lemma: `getEnvironmentParams` for a present component behaves like
`getComponentParams` and reports `true`. -/
theorem getEnvironmentParams_doc (plus : Bool) (pre post : List Comp) (cc : Comp)
    (hpre : ∀ x ∈ pre, x.name ≠ cc.name)
    (hdec : ∀ e ∈ cc.entries, decodableScalar e.2 = true)
    (hdist : distinct (cc.entries.map Prod.fst) = true) :
    getEnvironmentParams cc.name (docAST ⟨plus, pre ++ cc :: post⟩) =
      .ok (decodedEntries cc.entries,
        ⟨⟨3 + prefixLen pre, cc.name.length + (if plus then 9 else 7)⟩,
         ⟨3 + prefixLen pre + (entryLines cc.entries).length + 1, 6⟩⟩, true) := by
  unfold getEnvironmentParams
  rw [visitComponentsObj_docAST, bindE_ok]
  show (do
    let x ← findComponentField cc.name
      (Fields.ofList (compsFields plus 3 (pre ++ cc :: post)))
    match x with
    | some e2 => do
        let pl ← visitParams e2
        Except.ok (pl.1, pl.2, true)
    | none =>
        Except.ok (([] : Params),
          (⟨⟨(componentsLoc ⟨plus, pre ++ cc :: post⟩).lend.line - 1,
             (componentsLoc ⟨plus, pre ++ cc :: post⟩).lend.col⟩,
            ⟨(componentsLoc ⟨plus, pre ++ cc :: post⟩).lend.line,
             (componentsLoc ⟨plus, pre ++ cc :: post⟩).lend.col⟩⟩ : LocationRange),
          false)) = _
  rw [compsFields_append]
  rw [findComponentField_skip (compsFields_scan_hyp hpre)]
  show (do
    let x ← findComponentField cc.name
      (Fields.ofList ((compField plus (3 + prefixLen pre) cc) ::
        compsFields plus (3 + prefixLen pre + compLen cc) post))
    match x with
    | some e2 => do
        let pl ← visitParams e2
        Except.ok (pl.1, pl.2, true)
    | none =>
        Except.ok (([] : Params),
          (⟨⟨(componentsLoc ⟨plus, pre ++ cc :: post⟩).lend.line - 1,
             (componentsLoc ⟨plus, pre ++ cc :: post⟩).lend.col⟩,
            ⟨(componentsLoc ⟨plus, pre ++ cc :: post⟩).lend.line,
             (componentsLoc ⟨plus, pre ++ cc :: post⟩).lend.col⟩⟩ : LocationRange),
          false)) = _
  have hkey : compField plus (3 + prefixLen pre) cc =
      (FieldKey.ident cc.name, (compField plus (3 + prefixLen pre) cc).2) := rfl
  rw [hkey, findComponentField_hit, bindE_ok]
  show (do
    let pl ← visitParams (compField plus (3 + prefixLen pre) cc).2
    Except.ok (pl.1, pl.2, true)) = _
  rw [visitParams_compField plus (3 + prefixLen pre) cc hdec hdist, bindE_ok]

/-- Lemma: `getEnvironmentParams` for an absent component succeeds with empty
Params, a location just before the components object's closing brace, and
`false`. -/
theorem getEnvironmentParams_absent (d : Doc) (c : String)
    (hfresh : ∀ x ∈ d.comps, x.name ≠ c) :
    getEnvironmentParams c (docAST d) =
      .ok ([], ⟨⟨componentsEnd d - 1, 4⟩, ⟨componentsEnd d, 4⟩⟩, false) := by
  unfold getEnvironmentParams
  rw [visitComponentsObj_docAST, bindE_ok]
  show (do
    let x ← findComponentField c (Fields.ofList (compsFields d.plus 3 d.comps))
    match x with
    | some e2 => do
        let pl ← visitParams e2
        Except.ok (pl.1, pl.2, true)
    | none =>
        Except.ok (([] : Params),
          (⟨⟨(componentsLoc d).lend.line - 1, (componentsLoc d).lend.col⟩,
            ⟨(componentsLoc d).lend.line, (componentsLoc d).lend.col⟩⟩ :
            LocationRange),
          false)) = _
  rw [findComponentField_none (compsFields_scan_hyp hfresh), bindE_ok]
  rfl

/-- Lemma: `setEnvironmentParams` for an absent component inserts a `name +: {`
block immediately before the components object's closing-brace line. -/
theorem setEnvironmentParams_insert (d : Doc) (c : String) (p : Params)
    (hplus : d.plus = true) (hc : isASCIIIdentifier c = true)
    (hfresh : ∀ x ∈ d.comps, x.name ≠ c) :
    setEnvironmentParams c (docLines d) (docAST d) p =
      .ok (docLines (docAppend d c p)) := by
  unfold setEnvironmentParams
  rw [getEnvironmentParams_absent d c hfresh, bindE_ok]
  show Except.ok (List.take (componentsEnd d - 1) (docLines d) ++
      (("    " ++ sanitizeComponent c ++ " +: \x7b") ::
        (writeParams 6 (mergeCurrent [] p) ++ ["    \x7d,"])) ++
      List.drop (componentsEnd d - 1) (docLines d)) = _
  rw [docLines_take_end, docLines_drop_end, mergeCurrent_nil]
  obtain ⟨plus, comps⟩ := d
  simp only at hplus
  subst hplus
  rw [docAppend, docLines_append_comp]
  simp only [compLines, compHeader, sanitizeComponent_ident hc,
    writeParams_eq_entryLines]
  simp [List.append_assoc]

/-- Lemma: `setEnvironmentParams` for a present component rewrites its parameter
lines in place, exactly like `setComponentParams`. -/
theorem setEnvironmentParams_update (plus : Bool) (pre post : List Comp)
    (cc : Comp) (p : Params)
    (hpre : ∀ x ∈ pre, x.name ≠ cc.name)
    (hdec : ∀ e ∈ cc.entries, decodableScalar e.2 = true)
    (hdist : distinct (cc.entries.map Prod.fst) = true) :
    setEnvironmentParams cc.name (docLines ⟨plus, pre ++ cc :: post⟩)
        (docAST ⟨plus, pre ++ cc :: post⟩) p =
      .ok (docLines ⟨plus, pre ++
        (⟨cc.name, sortParams (mergeCurrent (decodedEntries cc.entries) p)⟩ : Comp)
          :: post⟩) := by
  unfold setEnvironmentParams
  rw [getEnvironmentParams_doc plus pre post cc hpre hdec hdist, bindE_ok]
  show Except.ok (List.take (3 + prefixLen pre) (docLines ⟨plus, pre ++ cc :: post⟩) ++
      writeParams 6 (mergeCurrent (decodedEntries cc.entries) p) ++
      List.drop (3 + prefixLen pre + (entryLines cc.entries).length)
        (docLines ⟨plus, pre ++ cc :: post⟩)) = _
  rw [docLines_take_comp, docLines_drop_comp, writeParams_eq_entryLines,
    docLines_decomp]
  simp [List.append_assoc]

-- ---------------------------------------------------------------------------
-- Lemmas about the visitor on general field lists (claims C4, C6, C8, C10).

/-- Lemma: `visit` on an object node is its field loop. -/
theorem visit_object (fs : Fields) (loc : LocationRange) (acc : Option ObjData) :
    visit (.object fs loc) acc = visitFieldsSearch fs acc := rfl

/-- Nodes on which the walk terminates with no effect (opaque leaves). -/
def isScalarLeaf : Node → Bool
  | .litNum _ => true
  | .litBool _ => true
  | .litStr _ _ => true
  | .litNull => true
  | .varN _ => true
  | .selfN => true
  | .importN _ => true
  | .object _ _ => false
  | .array _ => false
  | .binary _ _ => false

theorem visit_scalarLeaf {n : Node} (h : isScalarLeaf n = true)
    (acc : Option ObjData) : visit n acc = .ok acc := by
  cases n <;> first
    | rfl
    | simp [isScalarLeaf] at h

/-- Processing a run of fields that are neither identifier-keyed
`components` fields nor anything but opaque leaves returns the accumulator
unchanged. -/
theorem visitFieldsSearch_leaves (l : List (FieldKey × Node)) :
    ∀ acc, (∀ e ∈ l, fieldKeyId e.1 ≠ some componentsID ∧ isScalarLeaf e.2 = true) →
      visitFieldsSearch (Fields.ofList l) acc = .ok acc := by
  induction l with
  | nil => intro acc _; rfl
  | cons f l ih =>
      intro acc h
      obtain ⟨hne, hleaf⟩ := h f (List.mem_cons_self _ _)
      have hrest := fun x hx => h x (List.mem_cons_of_mem _ hx)
      show visitFieldsSearch (Fields.cons f.1 f.2 (Fields.ofList l)) acc = .ok acc
      cases hk : fieldKeyId f.1 with
      | some i =>
          have hine : ¬(i = componentsID) := by
            intro hcontr
            exact hne (by rw [hk, hcontr])
          simp only [visitFieldsSearch, hk, hine, if_false, if_neg]
          rw [visit_scalarLeaf hleaf, bindE_ok]
          exact ih acc hrest
      | none =>
          simp only [visitFieldsSearch, hk]
          rw [visit_scalarLeaf hleaf, bindE_ok]
          exact ih acc hrest

/-- Claim C4's mechanism: processing the fields before a direct
identifier-keyed `components` field, provided it raises no error, leaves the
walk to return the direct field's object — whatever the earlier fields wrote
into the accumulator is overwritten. -/
theorem visitFieldsSearch_direct (pre post : List (FieldKey × Node)) (o : Fields)
    (oloc : LocationRange) :
    ∀ (acc acc' : Option ObjData),
      (∀ e ∈ pre, fieldKeyId e.1 ≠ some componentsID) →
      visitFieldsSearch (Fields.ofList pre) acc = .ok acc' →
      visitFieldsSearch
        (Fields.ofList (pre ++ (FieldKey.ident componentsID, Node.object o oloc) :: post))
        acc = .ok (some (o, oloc)) := by
  induction pre with
  | nil =>
      intro acc acc' _ _
      show visitFieldsSearch
        (Fields.cons (FieldKey.ident componentsID) (Node.object o oloc)
          (Fields.ofList post)) acc = _
      simp [visitFieldsSearch, fieldKeyId]
  | cons f pre ih =>
      intro acc acc' hpre hvisit
      have hne : fieldKeyId f.1 ≠ some componentsID := hpre f (List.mem_cons_self _ _)
      have hrest := fun x hx => hpre x (List.mem_cons_of_mem _ hx)
      show visitFieldsSearch
        (Fields.cons f.1 f.2
          (Fields.ofList (pre ++ (FieldKey.ident componentsID, Node.object o oloc) :: post)))
        acc = _
      have hvisit2 : visitFieldsSearch (Fields.cons f.1 f.2 (Fields.ofList pre)) acc
          = .ok acc' := hvisit
      cases hk : fieldKeyId f.1 with
      | some i =>
          have hine : ¬(i = componentsID) := by
            intro hcontr
            exact hne (by rw [hk, hcontr])
          simp only [visitFieldsSearch, hk, hine, if_neg] at hvisit2 ⊢
          obtain ⟨a, hva, hcont⟩ := bindE_ok_inv hvisit2
          rw [hva, bindE_ok]
          exact ih a acc' hrest hcont
      | none =>
          simp only [visitFieldsSearch, hk] at hvisit2 ⊢
          obtain ⟨a, hva, hcont⟩ := bindE_ok_inv hvisit2
          rw [hva, bindE_ok]
          exact ih a acc' hrest hcont

/-- Structured (non-scalar) parameter value nodes. -/
def isStructuredNode : Node → Bool
  | .array _ => true
  | .object _ _ => true
  | _ => false

theorem visitParamValue_structured {n : Node} (h : isStructuredNode n = true) :
    visitParamValue n = .error "Found an unsupported param AST node type" := by
  cases n <;> first
    | rfl
    | simp [isStructuredNode] at h


/-- Model of Go `err != nil` on a Go `(result, err)` pair: the call failed. -/
def isErrorE {α : Type} : Except String α → Bool
  | .error _ => true
  | .ok _ => false

theorem isErrorE_error {α : Type} (e : String) :
    isErrorE (.error e : Except String α) = true := rfl

theorem isErrorE_ok {α : Type} (v : α) :
    isErrorE (.ok v : Except String α) = false := rfl

/-- If some identifier-keyed field holds a structured value, the parameter
loop fails. -/
theorem visitParamsFields_isError (l : List (FieldKey × Node)) :
    ∀ acc, (∃ e ∈ l, (fieldKeyId e.1).isSome = true ∧ isStructuredNode e.2 = true) →
      isErrorE (visitParamsFields (Fields.ofList l) acc) = true := by
  induction l with
  | nil =>
      intro acc h
      obtain ⟨e, he, _⟩ := h
      simp at he
  | cons f l ih =>
      intro acc h
      show isErrorE (visitParamsFields (Fields.cons f.1 f.2 (Fields.ofList l)) acc) = true
      cases hk : fieldKeyId f.1 with
      | none =>
          simp only [visitParamsFields, hk]
          obtain ⟨e, he, hsome, hstruct⟩ := h
          rcases List.mem_cons.mp he with heq | hmem
          · rw [heq, hk] at hsome
            simp at hsome
          · exact ih acc ⟨e, hmem, hsome, hstruct⟩
      | some key =>
          simp only [visitParamsFields, hk]
          cases hv : visitParamValue f.2 with
          | error msg => rw [bindE_error, isErrorE_error]
          | ok v =>
              rw [bindE_ok]
              obtain ⟨e, he, hsome, hstruct⟩ := h
              rcases List.mem_cons.mp he with heq | hmem
              · have hbad := visitParamValue_structured (heq ▸ hstruct)
                rw [hv] at hbad
                exact absurd hbad (by simp)
              · exact ih _ ⟨e, hmem, hsome, hstruct⟩

theorem visitParams_isError {l : List (FieldKey × Node)} {loc : LocationRange}
    (h : ∃ e ∈ l, (fieldKeyId e.1).isSome = true ∧ isStructuredNode e.2 = true) :
    isErrorE (visitParams (Node.object (Fields.ofList l) loc)) = true := by
  simp only [visitParams]
  cases hv : visitParamsFields (Fields.ofList l) [] with
  | error msg => rw [bindE_error, isErrorE_error]
  | ok ps =>
      have h2 := visitParamsFields_isError l [] h
      rw [hv, isErrorE_ok] at h2
      exact absurd h2 (by simp)

/-- If some component's parameter read fails, the whole-components read
fails (the loop aborts at the first failing component). -/
theorem visitAllParamsFields_isError (l : List (FieldKey × Node)) :
    ∀ acc, (∃ e ∈ l, isErrorE (visitParams e.2) = true) →
      isErrorE (visitAllParamsFields (Fields.ofList l) acc) = true := by
  induction l with
  | nil =>
      intro acc h
      obtain ⟨e, he, _⟩ := h
      simp at he
  | cons f l ih =>
      intro acc h
      show isErrorE (visitAllParamsFields (Fields.cons f.1 f.2 (Fields.ofList l)) acc) = true
      simp only [visitAllParamsFields]
      cases hv : visitParams f.2 with
      | error msg => rw [bindE_error, isErrorE_error]
      | ok pl =>
          rw [bindE_ok]
          cases hid : getFieldID f.1 with
          | error msg => rw [bindE_error, isErrorE_error]
          | ok id =>
              rw [bindE_ok]
              obtain ⟨e, he, herr⟩ := h
              rcases List.mem_cons.mp he with heq | hmem
              · rw [heq, hv, isErrorE_ok] at herr
                exact absurd herr (by simp)
              · exact ih _ ⟨e, hmem, herr⟩

/-- A document root whose `components` object binds each listed component
name to an object with the given fields (locations are irrelevant to the
read paths and set to zero). -/
def mkComponentsRoot (comps : List (String × Fields)) : Node :=
  Node.object (Fields.cons (FieldKey.ident componentsID)
    (Node.object (Fields.ofList (comps.map (fun e =>
      (FieldKey.ident e.1, Node.object e.2 ⟨⟨0, 0⟩, ⟨0, 0⟩⟩))))
      ⟨⟨0, 0⟩, ⟨0, 0⟩⟩) Fields.nil)
    ⟨⟨0, 0⟩, ⟨0, 0⟩⟩

theorem visitComponentsObj_mkRoot (comps : List (String × Fields)) :
    visitComponentsObj (mkComponentsRoot comps) =
      .ok (Fields.ofList (comps.map (fun e =>
        (FieldKey.ident e.1, Node.object e.2 ⟨⟨0, 0⟩, ⟨0, 0⟩⟩))), ⟨⟨0, 0⟩, ⟨0, 0⟩⟩) := rfl

/-- The parameter-field filter of claim C10: keep exactly the fields with
`field.Id != nil`. -/
def filterIdentKeyed (l : List (FieldKey × Node)) : List (FieldKey × Node) :=
  l.filter (fun e => (fieldKeyId e.1).isSome)

theorem visitParamsFields_filterIdent (l : List (FieldKey × Node)) :
    ∀ acc, visitParamsFields (Fields.ofList l) acc =
      visitParamsFields (Fields.ofList (filterIdentKeyed l)) acc := by
  induction l with
  | nil => intro acc; rfl
  | cons f l ih =>
      intro acc
      cases hk : fieldKeyId f.1 with
      | some key =>
          have hfil : filterIdentKeyed (f :: l) = f :: filterIdentKeyed l := by
            simp [filterIdentKeyed, List.filter, hk]
          rw [hfil]
          show visitParamsFields (Fields.cons f.1 f.2 (Fields.ofList l)) acc =
            visitParamsFields (Fields.cons f.1 f.2 (Fields.ofList (filterIdentKeyed l))) acc
          simp only [visitParamsFields, hk]
          cases hv : visitParamValue f.2 with
          | error msg => rw [bindE_error, bindE_error]
          | ok v => rw [bindE_ok, bindE_ok, ih]
      | none =>
          have hfil : filterIdentKeyed (f :: l) = filterIdentKeyed l := by
            simp [filterIdentKeyed, List.filter, hk]
          rw [hfil]
          show visitParamsFields (Fields.cons f.1 f.2 (Fields.ofList l)) acc =
            visitParamsFields (Fields.ofList (filterIdentKeyed l)) acc
          simp only [visitParamsFields, hk]
          exact ih acc

-- ---------------------------------------------------------------------------
-- The walk over a components object whose entries are ordinary parameter
-- blocks finds nothing and raises nothing (claim C8).

theorem parseScalar_leaf {v : String} {n : Node} (h : parseScalar v = some n) :
    isScalarLeaf n = true := by
  unfold parseScalar at h
  split at h
  · cases h; rfl
  split at h
  · cases h; rfl
  split at h
  · split at h
    · dsimp only at h
      split at h
      · cases h; rfl
      · cases h
    · cases h
  · dsimp only at h
    split at h
    · cases h
    · split at h
      · cases h; rfl
      · split at h
        · cases h; rfl
        · cases h
      · cases h

theorem entryNode_leaf (v : String) : isScalarLeaf (entryNode v) = true := by
  unfold entryNode
  cases h : parseScalar v with
  | none => rfl
  | some n => exact parseScalar_leaf h

theorem compFieldsList_leaves {es : Params} (hkeys : ∀ e ∈ es, e.1 ≠ componentsID) :
    ∀ e ∈ compFieldsList es,
      fieldKeyId e.1 ≠ some componentsID ∧ isScalarLeaf e.2 = true := by
  intro e he
  simp only [compFieldsList, List.mem_map] at he
  obtain ⟨x, hx, he⟩ := he
  rw [← he]
  refine ⟨?_, entryNode_leaf x.2⟩
  intro hcontr
  simp only [fieldKeyId, Option.some.injEq] at hcontr
  exact hkeys x hx hcontr

theorem visitFieldsSearch_compsFields {cs : List Comp} {plus : Bool}
    (hnames : ∀ x ∈ cs, x.name ≠ componentsID)
    (hkeys : ∀ x ∈ cs, ∀ e ∈ x.entries, e.1 ≠ componentsID) :
    ∀ (s : Nat) (acc : Option ObjData),
      visitFieldsSearch (Fields.ofList (compsFields plus s cs)) acc = .ok acc := by
  induction cs with
  | nil => intro s acc; rfl
  | cons c cs ih =>
      intro s acc
      have hname : ¬(c.name = componentsID) := hnames c (List.mem_cons_self _ _)
      show visitFieldsSearch
        (Fields.cons (FieldKey.ident c.name)
          (Node.object (Fields.ofList (compFieldsList c.entries))
            ⟨⟨s, c.name.length + (if plus then 9 else 7)⟩,
             ⟨s + (entryLines c.entries).length + 1, 6⟩⟩)
          (Fields.ofList (compsFields plus (s + compLen c) cs))) acc = .ok acc
      simp only [visitFieldsSearch, fieldKeyId, hname, if_neg]
      rw [visit_object,
        visitFieldsSearch_leaves (compFieldsList c.entries) acc
          (compFieldsList_leaves (hkeys c (List.mem_cons_self _ _))),
        bindE_ok]
      exact ih (fun x hx => hnames x (List.mem_cons_of_mem _ hx))
        (fun x hx => hkeys x (List.mem_cons_of_mem _ hx)) (s + compLen c) acc

/-- The parsed root of a canonical document in which the `components` field
is written with a quoted-string key (`"components": \x7b ... \x7d`): the AST is
identical to `docAST` except that the field is `ObjectFieldStr` with
`Id == nil`. -/
def docASTq (d : Doc) : Node :=
  .object (Fields.ofList [(FieldKey.str componentsID StrKind.double, componentsNodeOf d)])
    ⟨⟨1, 1⟩, ⟨componentsEnd d + 1, 2⟩⟩

-- ---------------------------------------------------------------------------
-- Concrete documents used by claims.

/-- The one-line source of claim C3:
`{ components: { foo: { replicas: 1, name: "a" } } }`. -/
def c3lines : List String :=
  ["\x7b components: \x7b foo: \x7b replicas: 1, name: \"a\" \x7d \x7d \x7d"]

/-- The AST the parser produces for `c3lines`: everything on line 1; the
`foo` object spans columns 22–48, the components object 15–50, the root
1–52. -/
def c3root : Node :=
  .object (Fields.ofList [(FieldKey.ident componentsID,
    .object (Fields.ofList [(FieldKey.ident "foo",
      .object (Fields.ofList
        [(FieldKey.ident "replicas", .litNum ⟨1, 0⟩),
         (FieldKey.ident "name", .litStr "a" .double)])
        ⟨⟨1, 22⟩, ⟨1, 48⟩⟩)])
      ⟨⟨1, 15⟩, ⟨1, 50⟩⟩)])
    ⟨⟨1, 1⟩, ⟨1, 52⟩⟩

/-- Root of claim C4's counterexample: the first field's subtree holds a
`components` field bound to the number 5; a direct `components` field with
an object value follows. -/
def c4cexRoot : Node :=
  Node.object (Fields.ofList
    [(FieldKey.ident "a",
      Node.object (Fields.ofList [(FieldKey.ident componentsID, Node.litNum ⟨5, 0⟩)])
        ⟨⟨2, 8⟩, ⟨4, 4⟩⟩),
     (FieldKey.ident componentsID, Node.object Fields.nil ⟨⟨5, 15⟩, ⟨6, 4⟩⟩)])
    ⟨⟨1, 1⟩, ⟨7, 2⟩⟩

/-- Earlier sibling fields for claim C4's witness: the field `a` holds an
object whose subtree contains a proper `components` object. -/
def c4pre : List (FieldKey × Node) :=
  [(FieldKey.ident "a",
    Node.object (Fields.ofList
      [(FieldKey.ident componentsID,
        Node.object (Fields.ofList [(FieldKey.ident "x", Node.litNum ⟨1, 0⟩)])
          ⟨⟨2, 10⟩, ⟨4, 4⟩⟩)])
      ⟨⟨2, 8⟩, ⟨5, 4⟩⟩)]

/-- Claim C5's counterexample document: an environment override file whose
root object directly holds the component overrides, with no `components`
field. -/
def c5envLines : List String :=
  ["\x7b", "  foo +: \x7b", "    a: 1,", "  \x7d,", "\x7d"]

/-- The AST the parser produces for `c5envLines`. -/
def c5envRoot : Node :=
  Node.object (Fields.ofList [(FieldKey.ident "foo",
    Node.object (Fields.ofList [(FieldKey.ident "a", Node.litNum ⟨1, 0⟩)])
      ⟨⟨2, 10⟩, ⟨4, 4⟩⟩)])
    ⟨⟨1, 1⟩, ⟨5, 2⟩⟩

-- ---------------------------------------------------------------------------
-- Claims.

/-- Claim C3 (counterexample): on the one-line source, `appendComponent`
computes insertion line `End.Line - 1 = 0` and therefore places the new
`bar` block on new lines BEFORE the entire original document line — not
before the original closing brace.  The first line of the result is the
block header, not the original document's first line (which any insertion
before the closing brace would have preserved). -/
theorem claim3_concrete_scenario_counterexample :
    appendComponent "bar" c3lines c3root [("replicas", "2")] =
      .ok (["    bar: \x7b", "      replicas: 2,", "    \x7d,"] ++ c3lines) ∧
    (["    bar: \x7b", "      replicas: 2,", "    \x7d,"] ++ c3lines).head? ≠
      c3lines.head? := by
  exact ⟨by decide, by decide⟩

/-- Claim C3 (amended): on the one-line source
`{ components: { foo: { replicas: 1, name: "a" } } }`,
`getComponentParams "foo"` returns `{replicas: "1", name: "\"a\""}` as
claimed; but `appendComponent "bar"` with `{replicas: "2"}` returns the new
block's three lines placed before the single original line (the insertion
index `End.Line - 1` is line 0 for a one-line document), leaving `foo`'s
line byte-for-byte unchanged as the last line — `bar` is not inside the
components object of the result. -/
theorem claim3_concrete_scenario_amended :
    getComponentParams "foo" c3root =
      .ok ([("replicas", "1"), ("name", "\"a\"")], ⟨⟨1, 22⟩, ⟨1, 48⟩⟩) ∧
    appendComponent "bar" c3lines c3root [("replicas", "2")] =
      .ok (["    bar: \x7b", "      replicas: 2,", "    \x7d,"] ++ c3lines) := by
  exact ⟨by decide, by decide⟩

/-- Claim C4 (counterexample): the locator does NOT check all of an object's
own fields before descending into field subtrees.  Here the first field's
subtree contains `components: 5`; the walk descends into it first and
aborts with an error, so the direct `components` object that follows is
never returned. -/
theorem claim4_preorder_counterexample :
    visit c4cexRoot none = .error "Expected components node type to be object" ∧
    visitComponentsObj c4cexRoot =
      .error "Expected components node type to be object" := by
  exact ⟨rfl, rfl⟩

/-- Claim C4 (amended): the locator iterates an object's fields in order,
descending into each non-matching field's subtree as it goes; provided the
earlier siblings' subtrees raise no error, a later direct identifier-keyed
`components` field with an Object value is returned — overwriting any
components object a sibling subtree had already stored in the accumulator. -/
theorem claim4_direct_field_wins (pre post : List (FieldKey × Node)) (o : Fields)
    (oloc loc : LocationRange) (acc acc' : Option ObjData)
    (hpre : ∀ e ∈ pre, fieldKeyId e.1 ≠ some componentsID)
    (hvisit : visitFieldsSearch (Fields.ofList pre) acc = .ok acc') :
    visit (Node.object
      (Fields.ofList (pre ++ (FieldKey.ident componentsID, Node.object o oloc) :: post))
      loc) acc = .ok (some (o, oloc)) := by
  rw [visit_object]
  exact visitFieldsSearch_direct pre post o oloc acc acc' hpre hvisit

/-- Witness for C4: instantiated where the earlier sibling's subtree DOES
contain a components object (the walk stores it in the accumulator), and
the direct field still wins. -/
theorem claim4_direct_field_wins_witness :
    ((∀ e ∈ c4pre, fieldKeyId e.1 ≠ some componentsID) ∧
      visitFieldsSearch (Fields.ofList c4pre) none =
        .ok (some (Fields.ofList [(FieldKey.ident "x", Node.litNum ⟨1, 0⟩)],
          ⟨⟨2, 10⟩, ⟨4, 4⟩⟩))) ∧
    visit (Node.object
      (Fields.ofList (c4pre ++ (FieldKey.ident componentsID,
        Node.object Fields.nil ⟨⟨6, 15⟩, ⟨7, 4⟩⟩) :: []))
      ⟨⟨1, 1⟩, ⟨8, 2⟩⟩) none = .ok (some (Fields.nil, ⟨⟨6, 15⟩, ⟨7, 4⟩⟩)) :=
  ⟨⟨by decide, by decide⟩,
   claim4_direct_field_wins c4pre [] Fields.nil ⟨⟨6, 15⟩, ⟨7, 4⟩⟩ ⟨⟨1, 1⟩, ⟨8, 2⟩⟩ none
     (some (Fields.ofList [(FieldKey.ident "x", Node.litNum ⟨1, 0⟩)], ⟨⟨2, 10⟩, ⟨4, 4⟩⟩))
     (by decide) (by decide)⟩

/-- Claim C6 (counterexample): a component whose only parameter field has a
quoted-string key and an array value does NOT make the reads fail — the
field is silently skipped and both reads succeed. -/
theorem claim6_counterexample :
    getComponentParams "foo" (mkComponentsRoot [("foo", Fields.ofList
      [(FieldKey.str "p" StrKind.double,
        Node.array (NodeList.cons (Node.litNum ⟨1, 0⟩) NodeList.nil))])])
      = .ok ([], ⟨⟨0, 0⟩, ⟨0, 0⟩⟩) ∧
    getAllComponentParams (mkComponentsRoot [("foo", Fields.ofList
      [(FieldKey.str "p" StrKind.double,
        Node.array (NodeList.cons (Node.litNum ⟨1, 0⟩) NodeList.nil))])])
      = .ok [("foo", [])] := by
  exact ⟨by decide, by decide⟩

/-- Claim C6 (amended): when the offending parameter field is
identifier-keyed, a structured (array or object) value makes both
`getComponentParams` on that component and `getAllComponentParams` fail. -/
theorem claim6_structured_value_rejected (pre post : List (String × Fields))
    (c : String) (flds : List (FieldKey × Node))
    (hpre : ∀ x ∈ pre, x.1 ≠ c)
    (hbad : ∃ e ∈ flds, (fieldKeyId e.1).isSome = true ∧ isStructuredNode e.2 = true) :
    isErrorE (getComponentParams c
      (mkComponentsRoot (pre ++ (c, Fields.ofList flds) :: post))) = true ∧
    isErrorE (getAllComponentParams
      (mkComponentsRoot (pre ++ (c, Fields.ofList flds) :: post))) = true := by
  have hscan : ∀ e ∈ pre.map (fun e =>
      (FieldKey.ident e.1, Node.object e.2 (⟨⟨0, 0⟩, ⟨0, 0⟩⟩ : LocationRange))),
      ∃ nm, e.1 = FieldKey.ident nm ∧ nm ≠ c := by
    intro e he
    simp only [List.mem_map] at he
    obtain ⟨x, hx, he⟩ := he
    exact ⟨x.1, by rw [← he], hpre x hx⟩
  constructor
  · unfold getComponentParams
    rw [visitComponentsObj_mkRoot, bindE_ok]
    show isErrorE (do
      let x ← findComponentField c (Fields.ofList
        ((pre ++ (c, Fields.ofList flds) :: post).map (fun e =>
          (FieldKey.ident e.1, Node.object e.2 ⟨⟨0, 0⟩, ⟨0, 0⟩⟩))))
      match x with
      | some e2 => visitParams e2
      | none => .error ("Could not find component identifier '" ++ c ++
          "' when attempting to set params")) = true
    rw [List.map_append, List.map_cons]
    rw [findComponentField_skip hscan]
    rw [findComponentField_hit, bindE_ok]
    exact visitParams_isError hbad
  · unfold getAllComponentParams
    rw [visitComponentsObj_mkRoot, bindE_ok]
    show isErrorE (visitAllParamsFields (Fields.ofList
      ((pre ++ (c, Fields.ofList flds) :: post).map (fun e =>
        (FieldKey.ident e.1, Node.object e.2 ⟨⟨0, 0⟩, ⟨0, 0⟩⟩)))) []) = true
    apply visitAllParamsFields_isError
    refine ⟨(FieldKey.ident c, Node.object (Fields.ofList flds) ⟨⟨0, 0⟩, ⟨0, 0⟩⟩),
      ?_, visitParams_isError hbad⟩
    simp

/-- Witness for C6: a component `foo` with one identifier-keyed parameter
`p: [1]`. -/
theorem claim6_structured_value_rejected_witness :
    ((∀ x ∈ ([] : List (String × Fields)), x.1 ≠ "foo") ∧
      (∃ e ∈ [(FieldKey.ident "p",
          Node.array (NodeList.cons (Node.litNum ⟨1, 0⟩) NodeList.nil))],
        (fieldKeyId e.1).isSome = true ∧ isStructuredNode e.2 = true)) ∧
    (isErrorE (getComponentParams "foo" (mkComponentsRoot
        [("foo", Fields.ofList [(FieldKey.ident "p",
          Node.array (NodeList.cons (Node.litNum ⟨1, 0⟩) NodeList.nil))])])) = true ∧
      isErrorE (getAllComponentParams (mkComponentsRoot
        [("foo", Fields.ofList [(FieldKey.ident "p",
          Node.array (NodeList.cons (Node.litNum ⟨1, 0⟩) NodeList.nil))])])) = true) :=
  ⟨⟨by decide, by decide⟩,
   claim6_structured_value_rejected [] [] "foo"
     [(FieldKey.ident "p", Node.array (NodeList.cons (Node.litNum ⟨1, 0⟩) NodeList.nil))]
     (by decide) (by decide)⟩

/-- Claim C8 (counterexample): when the components object is bound by the
quoted-string key `"components"` (an `ObjectFieldStr` field, whose `Id` is
`nil`), the locator does not match it and fails with the not-found error;
the identical document with the plain identifier key succeeds. -/
theorem claim8_quoted_components_key_counterexample :
    visitComponentsObj (docASTq ⟨false, [⟨"foo", [("a", "1")]⟩]⟩) =
      .error "Could not find object node: components" ∧
    visitComponentsObj (docAST ⟨false, [⟨"foo", [("a", "1")]⟩]⟩) =
      .ok (Fields.ofList (compsFields false 3 [⟨"foo", [("a", "1")]⟩]),
        componentsLoc ⟨false, [⟨"foo", [("a", "1")]⟩]⟩) := by
  exact ⟨by decide, by decide⟩

/-- Claim C8 (amended): the locator matches only identifier-keyed
`components` fields (`field.Id != nil`).  On a canonical document whose
`components` field key is a quoted string, the walk descends through the
components object (finding nothing, since component names and parameter
keys differ from `components`) and fails with `NotFoundError`; with the
plain identifier key it returns the components object.  The
quoted/identifier normalization of `getFieldID` applies only to component
lookup inside the components object, not to the locator. -/
theorem claim8_quoted_components_key (d : Doc)
    (hnames : ∀ x ∈ d.comps, x.name ≠ componentsID)
    (hkeys : ∀ x ∈ d.comps, ∀ e ∈ x.entries, e.1 ≠ componentsID) :
    visitComponentsObj (docASTq d) = .error "Could not find object node: components" ∧
    visitComponentsObj (docAST d) =
      .ok (Fields.ofList (compsFields d.plus 3 d.comps), componentsLoc d) := by
  refine ⟨?_, visitComponentsObj_docAST d⟩
  have hroot : visit (docASTq d) none = .ok none := by
    rw [show docASTq d = Node.object
      (Fields.cons (FieldKey.str componentsID StrKind.double) (componentsNodeOf d)
        Fields.nil) ⟨⟨1, 1⟩, ⟨componentsEnd d + 1, 2⟩⟩ from rfl]
    rw [visit_object]
    show (do
      let a ← visit (componentsNodeOf d) none
      visitFieldsSearch Fields.nil a) = _
    rw [show componentsNodeOf d = Node.object
      (Fields.ofList (compsFields d.plus 3 d.comps)) (componentsLoc d) from rfl]
    rw [visit_object, visitFieldsSearch_compsFields hnames hkeys 3 none, bindE_ok]
    rfl
  unfold visitComponentsObj
  rw [hroot, bindE_ok]
  rfl

/-- Witness for C8. -/
theorem claim8_quoted_components_key_witness :
    ((∀ x ∈ (⟨false, [⟨"web", [("replicas", "2")]⟩]⟩ : Doc).comps,
        x.name ≠ componentsID) ∧
      (∀ x ∈ (⟨false, [⟨"web", [("replicas", "2")]⟩]⟩ : Doc).comps,
        ∀ e ∈ x.entries, e.1 ≠ componentsID)) ∧
    (visitComponentsObj (docASTq ⟨false, [⟨"web", [("replicas", "2")]⟩]⟩) =
        .error "Could not find object node: components" ∧
      visitComponentsObj (docAST ⟨false, [⟨"web", [("replicas", "2")]⟩]⟩) =
        .ok (Fields.ofList (compsFields false 3 [⟨"web", [("replicas", "2")]⟩]),
          componentsLoc ⟨false, [⟨"web", [("replicas", "2")]⟩]⟩)) :=
  ⟨⟨by decide, by decide⟩,
   claim8_quoted_components_key ⟨false, [⟨"web", [("replicas", "2")]⟩]⟩
     (by decide) (by decide)⟩

/-- Claim C9 (counterexample): reading an absent component's environment
params does NOT fail: it succeeds with empty Params, an insertion location
before the components object's closing brace, and `false`. -/
theorem claim9_env_absent_counterexample :
    getEnvironmentParams "redis"
      (docAST ⟨true, [⟨"guestbook", [("replicas", "1")]⟩]⟩) =
      .ok ([], ⟨⟨5, 4⟩, ⟨6, 4⟩⟩, false) := by
  decide

/-- Claim C9 (amended): for a component absent from the document,
`getEnvironmentParams` succeeds (empty Params, a location just before the
components object's closing brace, `found = false`), whereas
`getComponentParams` fails with the not-found error — their semantics
differ. -/
theorem claim9_env_absent_succeeds (d : Doc) (c : String)
    (hfresh : ∀ x ∈ d.comps, x.name ≠ c) :
    getEnvironmentParams c (docAST d) =
      .ok ([], ⟨⟨componentsEnd d - 1, 4⟩, ⟨componentsEnd d, 4⟩⟩, false) ∧
    getComponentParams c (docAST d) =
      .error ("Could not find component identifier '" ++ c ++
        "' when attempting to set params") :=
  ⟨getEnvironmentParams_absent d c hfresh, getComponentParams_absent d c hfresh⟩

/-- Witness for C9. -/
theorem claim9_env_absent_succeeds_witness :
    (∀ x ∈ (⟨false, [⟨"web", [("x", "1")]⟩]⟩ : Doc).comps, x.name ≠ "api") ∧
    (getEnvironmentParams "api" (docAST ⟨false, [⟨"web", [("x", "1")]⟩]⟩) =
        .ok ([], ⟨⟨componentsEnd ⟨false, [⟨"web", [("x", "1")]⟩]⟩ - 1, 4⟩,
          ⟨componentsEnd ⟨false, [⟨"web", [("x", "1")]⟩]⟩, 4⟩⟩, false) ∧
      getComponentParams "api" (docAST ⟨false, [⟨"web", [("x", "1")]⟩]⟩) =
        .error ("Could not find component identifier '" ++ "api" ++
          "' when attempting to set params")) :=
  ⟨by decide,
   claim9_env_absent_succeeds ⟨false, [⟨"web", [("x", "1")]⟩]⟩ "api" (by decide)⟩

/-- Claim C10: when reading a component's Params, every parameter field
whose key is a quoted string (so `field.Id == nil`) is silently omitted:
the read over any field list equals the read over the identifier-keyed
fields only, for every value those quoted fields may hold — so the value is
never inspected and no error is raised.  The concrete conjunct shows the
store-level read: a quoted-key field holding an array (a value that an
identifier-keyed field would be rejected for) is dropped while the
identifier-keyed `q: 1` survives. -/
theorem claim10_quoted_param_fields_skipped :
    (∀ (l : List (FieldKey × Node)) (loc : LocationRange),
        visitParams (Node.object (Fields.ofList l) loc) =
          visitParams (Node.object (Fields.ofList (filterIdentKeyed l)) loc)) ∧
    getComponentParams "foo" (mkComponentsRoot [("foo", Fields.ofList
        [(FieldKey.str "p" StrKind.double,
          Node.array (NodeList.cons (Node.litNum ⟨1, 0⟩) NodeList.nil)),
         (FieldKey.ident "q", Node.litNum ⟨1, 0⟩)])])
      = .ok ([("q", "1")], ⟨⟨0, 0⟩, ⟨0, 0⟩⟩) := by
  constructor
  · intro l loc
    simp only [visitParams]
    rw [visitParamsFields_filterIdent]
  · decide

/-- Claim C1 (counterexample): `"2.50"` is a scalar literal text, but
reading back after appending returns `"2.5"` — the value is re-encoded from
the parsed number (`strconv.FormatFloat` of `ParseFloat("2.50")`), so the
round trip is not the identity on non-canonical texts. -/
theorem claim1_roundtrip_counterexample :
    appendComponent "bar" (docLines ⟨false, [⟨"foo", [("a", "1")]⟩]⟩)
        (docAST ⟨false, [⟨"foo", [("a", "1")]⟩]⟩) [("k", "2.50")]
      = .ok (docLines ⟨false, [⟨"foo", [("a", "1")]⟩, ⟨"bar", [("k", "2.50")]⟩]⟩) ∧
    getComponentParams "bar"
        (docAST ⟨false, [⟨"foo", [("a", "1")]⟩, ⟨"bar", [("k", "2.50")]⟩]⟩)
      = .ok ([("k", "2.5")], ⟨⟨6, 10⟩, ⟨8, 6⟩⟩) ∧
    ("2.5" : String) ≠ "2.50" := by
  exact ⟨by decide, by decide, by decide⟩

/-- Claim C1 (amended): for a canonical component params document, a
bare-identifier fresh component name, and Params whose keys are distinct
bare identifiers and whose values are canonical scalar literal texts (texts
the codec reproduces exactly), appending and reading back returns exactly
the appended Params (as a map: the read-back is the sorted rendering of
`p`, with the same key-value mapping). -/
theorem claim1_append_get_roundtrip (d : Doc) (c : String) (p : Params)
    (hplus : d.plus = false)
    (hwf : docWF d = true)
    (hc : isASCIIIdentifier c = true)
    (hfresh : ∀ x ∈ d.comps, x.name ≠ c)
    (hpk : ∀ e ∈ p, canonicalScalar e.2 = true)
    (hpd : distinct (p.map Prod.fst) = true) :
    appendComponent c (docLines d) (docAST d) p = .ok (docLines (docAppend d c p)) ∧
    ∃ loc, getComponentParams c (docAST (docAppend d c p)) = .ok (sortParams p, loc) ∧
      ∀ k, lookupAL (sortParams p) k = lookupAL p k := by
  have hk : ∀ e ∈ sortParams p, canonicalScalar e.2 = true := sortParams_all_canonical hpk
  have hdec : ∀ e ∈ sortParams p, decodableScalar e.2 = true :=
    fun e he => canonical_decodable (hk e he)
  have hdist : distinct ((sortParams p).map Prod.fst) = true := sortParams_distinct hpd
  refine ⟨appendComponent_doc d c p hplus hc hfresh, ?_⟩
  have hget := getComponentParams_doc d.plus d.comps [] ⟨c, sortParams p⟩ hfresh hdec hdist
  rw [decodedEntries_canonical hk] at hget
  exact ⟨_, hget, fun k => lookupAL_sortParams p k⟩

/-- Witness for C1. -/
theorem claim1_append_get_roundtrip_witness :
    ((⟨false, [⟨"guestbook", [("name", "\"guestbook\""), ("replicas", "1")]⟩]⟩ : Doc).plus
        = false ∧
      docWF ⟨false, [⟨"guestbook", [("name", "\"guestbook\""), ("replicas", "1")]⟩]⟩ = true ∧
      isASCIIIdentifier "nginx" = true ∧
      (∀ x ∈ (⟨false, [⟨"guestbook", [("name", "\"guestbook\""), ("replicas", "1")]⟩]⟩ :
        Doc).comps, x.name ≠ "nginx") ∧
      (∀ e ∈ ([("name", "\"nginx\""), ("replicas", "2")] : Params),
        canonicalScalar e.2 = true) ∧
      distinct (([("name", "\"nginx\""), ("replicas", "2")] : Params).map Prod.fst) = true) ∧
    (appendComponent "nginx"
        (docLines ⟨false, [⟨"guestbook", [("name", "\"guestbook\""), ("replicas", "1")]⟩]⟩)
        (docAST ⟨false, [⟨"guestbook", [("name", "\"guestbook\""), ("replicas", "1")]⟩]⟩)
        [("name", "\"nginx\""), ("replicas", "2")]
      = .ok (docLines (docAppend
          ⟨false, [⟨"guestbook", [("name", "\"guestbook\""), ("replicas", "1")]⟩]⟩
          "nginx" [("name", "\"nginx\""), ("replicas", "2")])) ∧
      ∃ loc, getComponentParams "nginx" (docAST (docAppend
          ⟨false, [⟨"guestbook", [("name", "\"guestbook\""), ("replicas", "1")]⟩]⟩
          "nginx" [("name", "\"nginx\""), ("replicas", "2")]))
          = .ok (sortParams [("name", "\"nginx\""), ("replicas", "2")], loc) ∧
        ∀ k, lookupAL (sortParams [("name", "\"nginx\""), ("replicas", "2")]) k =
          lookupAL [("name", "\"nginx\""), ("replicas", "2")] k) :=
  ⟨⟨rfl, by decide, by decide, by decide, by decide, by decide⟩,
   claim1_append_get_roundtrip
     ⟨false, [⟨"guestbook", [("name", "\"guestbook\""), ("replicas", "1")]⟩]⟩
     "nginx" [("name", "\"nginx\""), ("replicas", "2")]
     rfl (by decide) (by decide) (by decide) (by decide) (by decide)⟩

/-- Claim C2: `setComponentParams` merges the incoming Params over the
current ones — the returned text is the document with exactly the named
component's parameter lines replaced by the sorted render of the merged
map, where every key of the incoming map takes the incoming value and every
current key absent from the incoming map is carried forward unchanged. -/
theorem claim2_set_merge_semantics (plus : Bool) (pre post : List Comp) (cc : Comp)
    (p : Params)
    (hpre : ∀ x ∈ pre, x.name ≠ cc.name)
    (hdec : ∀ e ∈ cc.entries, decodableScalar e.2 = true)
    (hdist : distinct (cc.entries.map Prod.fst) = true) :
    setComponentParams cc.name (docLines ⟨plus, pre ++ cc :: post⟩)
        (docAST ⟨plus, pre ++ cc :: post⟩) p =
      .ok (docLines ⟨plus, pre ++
        (⟨cc.name, sortParams (mergeCurrent (decodedEntries cc.entries) p)⟩ : Comp)
          :: post⟩) ∧
    (∀ k, (lookupAL p k).isSome = true →
      lookupAL (sortParams (mergeCurrent (decodedEntries cc.entries) p)) k =
        lookupAL p k) ∧
    (∀ k, lookupAL p k = none →
      lookupAL (sortParams (mergeCurrent (decodedEntries cc.entries) p)) k =
        lookupAL (decodedEntries cc.entries) k) := by
  refine ⟨setComponentParams_doc plus pre post cc p hpre hdec hdist, ?_, ?_⟩
  · intro k hk
    rw [lookupAL_sortParams, lookupAL_mergeCurrent, if_pos hk]
  · intro k hk
    rw [lookupAL_sortParams, lookupAL_mergeCurrent]
    simp [hk]

/-- Witness for C2: current `{a: 1, b: 2}` with incoming `{b: 3, z: 9}`
yields `{a: 1, b: 3, z: 9}`, exactly the spec's example. -/
theorem claim2_set_merge_semantics_witness :
    ((∀ x ∈ ([] : List Comp),
        x.name ≠ (⟨"c0", [("a", "1"), ("b", "2")]⟩ : Comp).name) ∧
      (∀ e ∈ (⟨"c0", [("a", "1"), ("b", "2")]⟩ : Comp).entries,
        decodableScalar e.2 = true) ∧
      distinct ((⟨"c0", [("a", "1"), ("b", "2")]⟩ : Comp).entries.map Prod.fst)
        = true) ∧
    setComponentParams "c0" (docLines ⟨false, [⟨"c0", [("a", "1"), ("b", "2")]⟩]⟩)
        (docAST ⟨false, [⟨"c0", [("a", "1"), ("b", "2")]⟩]⟩) [("b", "3"), ("z", "9")]
      = .ok (docLines ⟨false, [⟨"c0", sortParams (mergeCurrent
          (decodedEntries [("a", "1"), ("b", "2")]) [("b", "3"), ("z", "9")])⟩]⟩) ∧
    sortParams (mergeCurrent (decodedEntries [("a", "1"), ("b", "2")])
        [("b", "3"), ("z", "9")]) = [("a", "1"), ("b", "3"), ("z", "9")] := by
  refine ⟨⟨by decide, by decide, by decide⟩, ?_, by decide⟩
  exact (claim2_set_merge_semantics false [] [] ⟨"c0", [("a", "1"), ("b", "2")]⟩
    [("b", "3"), ("z", "9")] (by decide) (by decide) (by decide)).1

/-- Claim C5 (counterexample): on an environment document whose root object
directly holds the component overrides (no `components` field, as the claim
describes environment documents), `setEnvironmentParams` does not insert a
block — it fails because the locator cannot find a `components` object. -/
theorem claim5_env_create_update_counterexample :
    setEnvironmentParams "bar" c5envLines c5envRoot [("x", "1")]
      = .error "Could not find object node: components" := by
  decide

/-- Claim C5 (amended): environment documents wrap their overrides in a
`components +:` object; for such a document with no entry for `c`,
`setEnvironmentParams` inserts a new `c +: { ... }` block immediately before
the COMPONENTS object's closing brace, and a second call updates that block
in place — the resulting document still contains exactly one component
named `c`, with the second call's value winning per key. -/
theorem claim5_env_create_then_update (d : Doc) (c : String) (p1 p2 : Params)
    (hplus : d.plus = true)
    (hwf : docWF d = true)
    (hc : isASCIIIdentifier c = true)
    (hfresh : ∀ x ∈ d.comps, x.name ≠ c)
    (hp1k : ∀ e ∈ p1, canonicalScalar e.2 = true)
    (hp1d : distinct (p1.map Prod.fst) = true) :
    setEnvironmentParams c (docLines d) (docAST d) p1
      = .ok (docLines (docAppend d c p1)) ∧
    setEnvironmentParams c (docLines (docAppend d c p1)) (docAST (docAppend d c p1)) p2
      = .ok (docLines ⟨d.plus, d.comps ++
          [⟨c, sortParams (mergeCurrent (sortParams p1) p2)⟩]⟩) ∧
    ((d.comps ++ [(⟨c, sortParams (mergeCurrent (sortParams p1) p2)⟩ : Comp)]).countP
        (fun x => x.name == c)) = 1 ∧
    (∀ k, (lookupAL p2 k).isSome = true →
      lookupAL (sortParams (mergeCurrent (sortParams p1) p2)) k = lookupAL p2 k) := by
  have hk := sortParams_all_canonical hp1k
  have hdec : ∀ e ∈ sortParams p1, decodableScalar e.2 = true :=
    fun e he => canonical_decodable (hk e he)
  have hdist := sortParams_distinct hp1d
  refine ⟨setEnvironmentParams_insert d c p1 hplus hc hfresh, ?_, ?_, ?_⟩
  · have hupd := setEnvironmentParams_update d.plus d.comps [] ⟨c, sortParams p1⟩ p2
      hfresh hdec hdist
    rw [decodedEntries_canonical hk] at hupd
    exact hupd
  · rw [List.countP_append]
    have h0 : d.comps.countP (fun x => x.name == c) = 0 := by
      rw [List.countP_eq_zero]
      intro a ha
      simp [hfresh a ha]
    rw [h0]
    simp
  · intro k hk2
    rw [lookupAL_sortParams, lookupAL_mergeCurrent, if_pos hk2]

/-- Witness for C5: create `bar +: { x: 1 }` in an environment document with
one component `foo`, then update it to `x: 2`. -/
theorem claim5_env_create_then_update_witness :
    ((⟨true, [⟨"foo", [("a", "1")]⟩]⟩ : Doc).plus = true ∧
      docWF ⟨true, [⟨"foo", [("a", "1")]⟩]⟩ = true ∧
      isASCIIIdentifier "bar" = true ∧
      (∀ x ∈ (⟨true, [⟨"foo", [("a", "1")]⟩]⟩ : Doc).comps, x.name ≠ "bar") ∧
      (∀ e ∈ ([("x", "1")] : Params), canonicalScalar e.2 = true) ∧
      distinct (([("x", "1")] : Params).map Prod.fst) = true) ∧
    (setEnvironmentParams "bar" (docLines ⟨true, [⟨"foo", [("a", "1")]⟩]⟩)
        (docAST ⟨true, [⟨"foo", [("a", "1")]⟩]⟩) [("x", "1")]
      = .ok (docLines (docAppend ⟨true, [⟨"foo", [("a", "1")]⟩]⟩ "bar" [("x", "1")])) ∧
     setEnvironmentParams "bar"
        (docLines (docAppend ⟨true, [⟨"foo", [("a", "1")]⟩]⟩ "bar" [("x", "1")]))
        (docAST (docAppend ⟨true, [⟨"foo", [("a", "1")]⟩]⟩ "bar" [("x", "1")]))
        [("x", "2")]
      = .ok (docLines ⟨(⟨true, [⟨"foo", [("a", "1")]⟩]⟩ : Doc).plus,
          (⟨true, [⟨"foo", [("a", "1")]⟩]⟩ : Doc).comps ++
          [⟨"bar", sortParams (mergeCurrent (sortParams [("x", "1")]) [("x", "2")])⟩]⟩) ∧
     (((⟨true, [⟨"foo", [("a", "1")]⟩]⟩ : Doc).comps ++
        [(⟨"bar", sortParams (mergeCurrent (sortParams [("x", "1")]) [("x", "2")])⟩ :
          Comp)]).countP (fun x => x.name == "bar")) = 1 ∧
     (∀ k, (lookupAL [("x", "2")] k).isSome = true →
        lookupAL (sortParams (mergeCurrent (sortParams [("x", "1")]) [("x", "2")])) k =
          lookupAL [("x", "2")] k)) :=
  ⟨⟨rfl, by decide, by decide, by decide, by decide, by decide⟩,
   claim5_env_create_then_update ⟨true, [⟨"foo", [("a", "1")]⟩]⟩ "bar"
     [("x", "1")] [("x", "2")]
     rfl (by decide) (by decide) (by decide) (by decide) (by decide)⟩
